import Mathlib

/-!
# xlpython/config.cpp : configuration store and macro resolution

A shallow embedding of `src/xlpython/config.cpp`.

* `std::string` is `List Char`; string positions are `size_t` values, modelled
  as natural numbers below `2 ^ 64` with wrap-around arithmetic (`uadd`, `usub`)
  and `npos = 2 ^ 64 - 1`.
* `Config::ValueMap`, `Config::ConfigMap` and the `unordered_map` of the child
  environment are association lists with unique keys (`mfind`, `mset`, `merase`).
* C++ exceptions are the `fail` results of `Outcome`; the `while(true)` macro
  loop runs on fuel and `Outcome.timeout` is "the fuel ran out".
* Functions declared outside `config.cpp` (file system, GUIDs, the environment
  block, path normalisation) are fields of `World`; the calls `ActivateRPCServer`
  makes to COM and to the process API are answered by the fields of `RpcWorld`,
  and the calls made are recorded, in order, in a trace of `Event`s.
* An `HRESULT` is its 32-bit pattern as a natural number.
-/

namespace XlPython

/-! ## Strings and `size_t` -/

/-- The model of `std::string`. -/
abbrev Str := List Char

/-- The modulus of `size_t` arithmetic. -/
def sizeMod : Nat := 2 ^ 64

/-- The constant `std::string::npos`, i.e. `(size_t)(-1)`. -/
def npos : Nat := 2 ^ 64 - 1

/-- Addition of two `size_t` values. -/
def uadd (a b : Nat) : Nat := (a + b) % sizeMod

/-- Subtraction of two `size_t` values (both below `sizeMod`). -/
def usub (a b : Nat) : Nat := (a + sizeMod - b) % sizeMod

/-- Whether `needle` occurs at the very start of `s`. -/
def startsWith : Str → Str → Bool
  | [], _ => true
  | _ :: _, [] => false
  | a :: as, c :: cs => a == c && startsWith as cs

/-- The first index at which `needle` occurs in `s`, if any. -/
def sfind (needle : Str) : Str → Option Nat
  | [] => if startsWith needle [] then some 0 else none
  | c :: cs =>
    if startsWith needle (c :: cs) then some 0
    else (sfind needle cs).map (· + 1)

/-- The last index at which `needle` occurs in `s`, if any. -/
def srfind (needle : Str) : Str → Option Nat
  | [] => if startsWith needle [] then some 0 else none
  | c :: cs =>
    match srfind needle cs with
    | some i => some (i + 1)
    | none => if startsWith needle (c :: cs) then some 0 else none

/-- The call `s.find(needle, pos)`: first occurrence at an index `≥ pos`, else `npos`. -/
def find (s needle : Str) (pos : Nat) : Nat :=
  match sfind needle (s.drop pos) with
  | some i => pos + i
  | none => npos

/-- The call `s.rfind(needle)`: last occurrence, else `npos`. -/
def rfind (s needle : Str) : Nat :=
  match srfind needle s with
  | some i => i
  | none => npos

/-- The call `s.substr(pos, n)`: at most `n` characters from `pos` on. Every call site in
`config.cpp` has `pos ≤ s.length`, so the `out_of_range` case of the library is not modelled. -/
def substr (s : Str) (pos n : Nat) : Str := (s.drop pos).take n

/-- The call `s.replace(pos, n, r)`: the (at most `n`) characters from `pos` on are
replaced by `r`. Every call site has `pos ≤ s.length`. -/
def replace (s : Str) (pos n : Nat) (r : Str) : Str :=
  s.take pos ++ r ++ (s.drop pos).drop n

/-! ## Finite maps -/

/-- Lookup in an association list (`map::find`). -/
def mfind {κ α : Type} [DecidableEq κ] : List (κ × α) → κ → Option α
  | [], _ => none
  | (k', v) :: rest, k => if k' = k then some v else mfind rest k

/-- Assignment `m[k] = v`: overwrite the entry of `k` or add one. -/
def mset {κ α : Type} [DecidableEq κ] : List (κ × α) → κ → α → List (κ × α)
  | [], k, v => [(k, v)]
  | (k', v') :: rest, k, v =>
    if k' = k then (k, v) :: rest else (k', v') :: mset rest k v

/-- Removal of the entry of `k`. -/
def merase {κ α : Type} [DecidableEq κ] : List (κ × α) → κ → List (κ × α)
  | [], _ => []
  | (k', v') :: rest, k => if k' = k then merase rest k else (k', v') :: merase rest k

/-- The type `Config::ValueMap`: string keys to string values. -/
abbrev ValueMap := List (Str × Str)

/-! ## `SplitPath` (lines 7-35) -/

/-- The function `SplitPath(path, values, prefix)`; `pfx` is the parameter `prefix`. -/
def SplitPath (path : Str) (values : ValueMap) (pfx : Str) : ValueMap :=
  let values := mset values (pfx ++ "Path".toList) path
  let itSlash := rfind path "\\".toList
  let fv : Str × ValueMap :=
    if itSlash = npos then (path, values)
    else
      (substr path (uadd itSlash 1) (usub path.length itSlash),
        mset values (pfx ++ "Dir".toList) (substr path 0 itSlash))
  let filename := fv.1
  let values := mset fv.2 (pfx ++ "FileName".toList) filename
  let itDot := rfind filename ".".toList
  if itDot ≠ npos then
    let values := mset values (pfx ++ "Ext".toList)
      (substr filename (uadd itDot 1) (usub path.length itDot))
    mset values (pfx ++ "Name".toList) (substr filename 0 itDot)
  else
    let values := mset values (pfx ++ "Ext".toList) []
    mset values (pfx ++ "Name".toList) filename

/-- The local variable `filename` of `SplitPath` (lines 11-21): the whole path, or what
follows the last separator. -/
def fileNameOf (path : Str) : Str :=
  if rfind path "\\".toList = npos then path
  else substr path (uadd (rfind path "\\".toList) 1) (usub path.length (rfind path "\\".toList))

/-! ## Errors and results -/

/-- The exceptions thrown in `config.cpp`, one constructor per `throw` site. -/
inductive ConfigError where
  /-- Line 46: an environment string without `=`. -/
  | envParse (s : Str)
  /-- Line 75: the configuration file could not be opened. -/
  | cannotOpen (filename : Str)
  /-- Line 88: a line that is neither empty, a comment nor `key=value` (`MalformedLine`). -/
  | malformedLine
  /-- Line 100: `Macro $(...) was not closed` (`MalformedMacro`). -/
  | malformedMacro (line : Str)
  /-- Line 156: a required key is absent (`MissingKey` / `KeyNotFound`). -/
  | keyNotFound (key : Str)
  /-- Line 229: `strcat_s` finds no room in `char cmdLine[2048]` and calls the
  invalid-parameter handler of the C runtime. -/
  | cmdLineOverflow
  /-- Line 316: the file for output redirection could not be opened (`RedirectSetupFailed`). -/
  | redirectFailed (filename : Str)
  /-- Line 331: `CreateProcessA` failed (`ProcessSpawnFailed`). -/
  | createProcessFailed
  /-- Line 347: `GetExitCodeProcess` failed. -/
  | getExitCodeFailed
  /-- Line 355: the process exited before the interface object could be created
  (`ProcessExitedPrematurely`). -/
  | processExited
  /-- Line 364: `Could not active Python COM server, hr = ...`, with the `hr` of the last
  activation attempt (`ActivationFailure`; `ActivationTimedOut` when the polling ran out). -/
  | couldNotActivate (hr : Nat)
  /-- An exception thrown by a function declared outside `config.cpp`. -/
  | external (what : Str)
  deriving DecidableEq

/-- The result of running a piece of the program. -/
inductive Outcome (α : Type) where
  /-- Normal return. -/
  | ok (a : α)
  /-- An exception was thrown. -/
  | fail (e : ConfigError)
  /-- The `while(true)` macro loop did not end within the fuel given to it. -/
  | timeout
  /-- Undefined behaviour: a deleted object was used. -/
  | undefined
  deriving DecidableEq

/-- Sequencing: run `f` on a normal result, pass everything else on. -/
def Outcome.bind {α β : Type} (r : Outcome α) (f : α → Outcome β) : Outcome β :=
  match r with
  | .ok a => f a
  | .fail e => .fail e
  | .timeout => .timeout
  | .undefined => .undefined

/-! ## Helpers declared outside `config.cpp` -/

/-- The predicate `isspace` of the C locale. -/
def isSpace (c : Char) : Bool :=
  c = Char.ofNat 32 || c = Char.ofNat 9 || c = Char.ofNat 10 || c = Char.ofNat 11 ||
    c = Char.ofNat 12 || c = Char.ofNat 13

/-- Modelled from the spec: `strtrim` is declared outside `config.cpp`; the spec says lines,
keys and values are trimmed of whitespace, so the model drops the whitespace at both ends. -/
def strtrim (s : Str) : Str :=
  ((s.dropWhile isSpace).reverse.dropWhile isSpace).reverse

/-- Modelled from the spec: `strupper` is declared outside `config.cpp`; the spec says each
name is uppercased, as `AddEnvironmentVariables` does with `std::toupper`. -/
def strupper (s : Str) : Str := s.map Char.toUpper

/-- The pieces of a string between its delimiter characters, `cur` being the piece
that is being read. -/
def splitAux (delim : Str) : Str → Str → List Str
  | [], cur => [cur]
  | c :: cs, cur =>
    if c ∈ delim then cur :: splitAux delim cs [] else splitAux delim cs (cur ++ [c])

/-- Modelled from the spec: `strsplit` is declared outside `config.cpp`; the spec calls the
values it is applied to comma-separated lists, so the model cuts at every delimiter (every
call site passes the one-character delimiter `","`). -/
def strsplit (s : Str) (delim : Str) : List Str := splitAux delim s []

/-! ## Lookup helpers (lines 151-188) -/

/-- The call `Config::GetValue(key)`: throws when the key is absent. -/
def GetValue (values : ValueMap) (key : Str) : Except ConfigError Str :=
  match mfind values key with
  | none => .error (.keyNotFound key)
  | some v => .ok v

/-- The call `Config::GetValue(key, dfault)`. -/
def GetValueD (values : ValueMap) (key dfault : Str) : Str :=
  match mfind values key with
  | none => dfault
  | some v => v

/-- The call `Config::HasValue(key)`. -/
def HasValue (values : ValueMap) (key : Str) : Bool :=
  match mfind values key with
  | none => false
  | some _ => true

/-- The call `Config::TryGetValue(key, value)`: the returned flag and the content of the
output parameter afterwards (`value` is its content before the call). -/
def TryGetValue (values : ValueMap) (key value : Str) : Bool × Str :=
  match mfind values key with
  | none => (false, value)
  | some v => (true, v)

/-! ## The macro expansion loop (lines 93-109) -/

/-- One pass through the body of the `while(true)` loop of lines 93-109. -/
inductive MacroStep where
  /-- The `break` of line 97: the value holds no `$(`. -/
  | done (value : Str)
  /-- The end of the body was reached with this new value. -/
  | next (value : Str)
  /-- An exception left the loop. -/
  | fail (e : ConfigError)
  deriving DecidableEq

/-- The body of the macro loop, for the current `value` of the line `line`; `mac` is the
local variable `macro`. The guard of line 99 tests `itMacroStart`, as the source does. -/
def macroStep (values : ValueMap) (line value : Str) : MacroStep :=
  let itMacroStart := find value "$(".toList 0
  if itMacroStart = npos then .done value
  else
    let itMacroEnd := find value ")".toList itMacroStart
    if itMacroStart = npos then .fail (.malformedMacro line)
    else
      let mac := substr value (uadd itMacroStart 2) (usub (usub itMacroEnd itMacroStart) 2)
      let macroValue : Except ConfigError Str :=
        if mac.length > 0 ∧ mac.head? = some '?' then
          .ok (GetValueD values (substr mac 1 npos) [])
        else GetValue values mac
      match macroValue with
      | .ok mv => .next (replace value itMacroStart (uadd (usub itMacroEnd itMacroStart) 1) mv)
      | .error e => .fail e

/-- The macro loop: at most `fuel` passes through the body. -/
def expandMacros (values : ValueMap) (line : Str) : Nat → Str → Outcome Str
  | 0, _ => .timeout
  | fuel + 1, value =>
    match macroStep values line value with
    | .done v => .ok v
    | .next v => expandMacros values line fuel v
    | .fail e => .fail e

/-! ## The line loop (lines 76-112) -/

/-- What lines 83-91 make of a line read by `std::getline`. -/
inductive LineKind where
  /-- The `continue` of line 85: an empty line or a comment. -/
  | skip
  /-- The `throw` of line 88: no `=` in the line. -/
  | malformed
  /-- Lines 90-91: the trimmed line, its key and its value before macro expansion. -/
  | assign (line key value : Str)
  deriving DecidableEq

/-- Lines 83-91 of the line loop: `raw` is what `std::getline` read. -/
def parseLine (raw : Str) : LineKind :=
  let line := strtrim raw
  if line = [] ∨ line.head? = some '#' then .skip
  else
    let itEquals := find line "=".toList 0
    if itEquals = npos then .malformed
    else
      let key := strtrim (substr line 0 itEquals)
      let value := strtrim (substr line (uadd itEquals 1) (usub (usub line.length itEquals) 1))
      .assign line key value

/-- One pass through the body of the line loop (lines 82-111). -/
def processLine (fuel : Nat) (values : ValueMap) (raw : Str) : Outcome ValueMap :=
  match parseLine raw with
  | .skip => .ok values
  | .malformed => .fail .malformedLine
  | .assign line key value =>
    (expandMacros values line fuel value).bind fun value => .ok (mset values key value)

/-- The key a line assigns, if it is of the form `key=value`. -/
def assignedKey (raw : Str) : Option Str :=
  match parseLine raw with
  | .assign _ key _ => some key
  | _ => none

/-- The line loop over the successive results of `std::getline`. -/
def loadLines (fuel : Nat) : ValueMap → List Str → Outcome ValueMap
  | values, [] => .ok values
  | values, raw :: rest =>
    (processLine fuel values raw).bind fun values => loadLines fuel values rest

/-! ## `AddEnvironmentVariables` (lines 37-57) -/

/-- The function `AddEnvironmentVariables`, over the strings of the environment block. -/
def AddEnvironmentVariables : ValueMap → List Str → Except ConfigError ValueMap
  | values, [] => .ok values
  | values, keyEqualsValue :: rest =>
    let equalsPos := find keyEqualsValue "=".toList 0
    if equalsPos = npos then .error (.envParse keyEqualsValue)
    else
      let key := substr keyEqualsValue 0 equalsPos
      let value := substr keyEqualsValue (uadd equalsPos 1)
        (usub (usub keyEqualsValue.length equalsPos) 1)
      let key := key.map Char.toUpper
      AddEnvironmentVariables (mset values ("Environment:".toList ++ key) value) rest

/-! ## The `Config` constructor (lines 59-113) -/

/-- What the functions declared outside `config.cpp` answer during one call. -/
structure World where
  /-- The function `GetLastWriteTime`: modification time of a file. -/
  lastWriteTime : Str → Nat
  /-- The function `GetDLLPath`. -/
  dllPath : Str
  /-- The strings of the block returned by `GetEnvironmentStrings`. -/
  environmentStrings : List Str
  /-- The text of the GUID made by `NewGUID` and `GUIDToStdString`. -/
  newGuid : Str
  /-- The successive `std::getline` results of a file, `none` when it cannot be opened. -/
  fileLines : Str → Option (List Str)
  /-- The function `GetFullPathRelativeToDLLFolder`. -/
  fullPath : Str → Str

/-- The data members of `Config`. -/
structure Config where
  /-- The member `ftLastModify`. -/
  ftLastModify : Nat
  /-- The member `values`. -/
  values : ValueMap
  /-- The member `pInterface`: `none` is `NULL`. -/
  pInterface : Option Nat
  deriving DecidableEq

/-- The values set before the file is read (lines 64-70). -/
def initialValues (w : World) (filename : Str) : Except ConfigError ValueMap :=
  let values := SplitPath filename [] "Config".toList
  let values := SplitPath w.dllPath values "Dll".toList
  match AddEnvironmentVariables values w.environmentStrings with
  | .ok values => .ok (mset values "RandomGUID".toList w.newGuid)
  | .error e => .error e

/-- The constructor `Config::Config(filename)`. -/
def Config.construct (w : World) (fuel : Nat) (filename : Str) : Outcome Config :=
  let ftLastModify := w.lastWriteTime filename
  match initialValues w filename with
  | .error e => .fail e
  | .ok values =>
    match w.fileLines filename with
    | none => .fail (.cannotOpen filename)
    | some lines =>
      (loadLines fuel values lines).bind fun values =>
        .ok { ftLastModify := ftLastModify, values := values, pInterface := none }

/-! ## `Config::GetConfig` (lines 122-149) -/

/-- The function `CompareFileTime`: `-1` when the first time is earlier, `1` when later. -/
def CompareFileTime (a b : Nat) : Int :=
  if a < b then -1 else if a = b then 0 else 1

/-- The static cache together with the `Config` objects on the heap. A `Config*` is the
identity of an allocation; `next` is the identity the next `new` gives. -/
structure Store where
  /-- The live `Config` objects: those allocated and not yet deleted. -/
  live : List (Nat × Config)
  /-- The static member `Config::configs`: normalized path to `Config*`. -/
  configs : List (Str × Nat)
  /-- The identity of the next allocation. -/
  next : Nat
  deriving DecidableEq

/-- The statement `configs[fullpath] = c = new Config(fullpath); return c;`. The right-hand
side is evaluated first (the order C++17 fixes; earlier standards leave it open): when the
constructor throws, nothing is allocated and the map is not assigned. -/
def Store.newConfig (w : World) (fuel : Nat) (s : Store) (fullpath : Str) :
    Outcome Nat × Store :=
  match Config.construct w fuel fullpath with
  | .ok c =>
    (.ok s.next,
      { live := mset s.live s.next c, configs := mset s.configs fullpath s.next,
        next := s.next + 1 })
  | .fail e => (.fail e, s)
  | .timeout => (.timeout, s)
  | .undefined => (.undefined, s)

/-- The function `Config::GetConfig(filename)`: the returned pointer (or the exception) and
the store afterwards. Reading `it->second->ftLastModify` through a pointer whose object has
been deleted is undefined behaviour. -/
def GetConfig (w : World) (fuel : Nat) (s : Store) (filename : Str) : Outcome Nat × Store :=
  let fullpath := w.fullPath filename
  match mfind s.configs fullpath with
  | none => Store.newConfig w fuel s fullpath
  | some p =>
    let ftLastModify := w.lastWriteTime fullpath
    match mfind s.live p with
    | none => (.undefined, s)
    | some c =>
      if CompareFileTime c.ftLastModify ftLastModify = -1 then
        Store.newConfig w fuel { s with live := merase s.live p } fullpath
      else (.ok p, s)

/-- The well-formed stores: the cache and the heap have one entry per key, and every object
identity in use is older than the next one. -/
def Store.WF (s : Store) : Prop :=
  (s.configs.map Prod.fst).Nodup ∧ (s.live.map Prod.fst).Nodup ∧
    (∀ p ∈ s.live.map Prod.fst, p < s.next) ∧ (∀ p ∈ s.configs.map Prod.snd, p < s.next)

instance (s : Store) : Decidable s.WF := by
  unfold Store.WF; infer_instance

/-! ## The child environment (lines 232-270) -/

/-- The loop of lines 238-244 over the items of `EnvironmentInclude`. -/
def includeLoop (values : ValueMap) : List Str → List (Str × Str) → List (Str × Str)
  | [], environment => environment
  | item :: rest, environment =>
    let name := strupper item
    let r := TryGetValue values ("Environment:".toList ++ name) []
    includeLoop values rest (if r.1 then mset environment name r.2 else environment)

/-- The loop of lines 253-257 building the `exclude` set. -/
def excludeSet (items : List Str) : List Str := items.map strupper

/-- The loop of lines 260-269 over the entries of `values`. -/
def excludeLoop (exclude : List Str) : ValueMap → List (Str × Str) → List (Str × Str)
  | [], environment => environment
  | (first, second) :: rest, environment =>
    let pfx := "Environment:".toList
    if first.length > pfx.length ∧ substr first 0 pfx.length = pfx then
      let key := substr first pfx.length npos
      excludeLoop exclude rest
        (if key ∈ exclude then environment else mset environment key second)
    else excludeLoop exclude rest environment

/-- The `environment` map built by lines 232-270 of `Config::ActivateRPCServer`. -/
def buildEnvironment (values : ValueMap) : Except ConfigError (List (Str × Str)) :=
  if HasValue values "EnvironmentInclude".toList then
    match GetValue values "EnvironmentInclude".toList with
    | .ok s => .ok (includeLoop values (strsplit s ",".toList) [])
    | .error e => .error e
  else
    let exclude : Except ConfigError (List Str) :=
      if HasValue values "EnvironmentExclude".toList then
        match GetValue values "EnvironmentExclude".toList with
        | .ok s => .ok (excludeSet (strsplit s ",".toList))
        | .error e => .error e
      else .ok []
    match exclude with
    | .ok ex => .ok (excludeLoop ex values [])
    | .error e => .error e

/-! ## The environment block (lines 271-287) -/

/-- The terminating character `0`. -/
def NUL : Char := Char.ofNat 0

/-- The count `nChars` of lines 271-273. -/
def envChars : List (Str × Str) → Nat
  | [] => 0
  | (first, second) :: rest => first.length + 1 + second.length + 1 + envChars rest

/-- The characters written to `envStr` by lines 275-287, in the iteration order of the
map: `first=second` and a `0` for every entry (lines 276-286), then one `0` (line 287). The
buffer has room for `nChars + 1` characters (line 274). -/
def environmentBlock : List (Str × Str) → List Char
  | [] => [NUL]
  | (first, second) :: rest => first ++ ['='] ++ second ++ [NUL] ++ environmentBlock rest

/-! ## `Config::CheckRPCServer` (lines 197-202) -/

/-- An `HRESULT` is modelled by its 32-bit pattern. The Windows SDK constant
`REGDB_E_CLASSNOTREG`. -/
def REGDB_E_CLASSNOTREG : Nat := 0x80040154

/-- The Windows SDK constant `STILL_ACTIVE`. -/
def STILL_ACTIVE : Nat := 259

/-- The Windows SDK macro `FAILED(hr)`: the `HRESULT` is negative, its bit 31 is set. -/
def FAILED (hr : Nat) : Bool := decide (2 ^ 31 ≤ hr % 2 ^ 32)

/-- The function `Config::CheckRPCServer`, `hr` being what `GetTypeInfoCount` returned. -/
def CheckRPCServer (hr : Nat) : Bool := decide (0x800706ba ≠ hr)

/-! ## `Config::ActivateRPCServer` (lines 204-368) -/

/-- The calls `ActivateRPCServer` makes to the outside, in the order it makes them. -/
inductive Event where
  /-- Line 211: `pInterface->Release()`. -/
  | release (h : Nat)
  /-- Lines 220 and 340: `CoCreateInstance`. -/
  | activate
  /-- Line 306: `CreateFileA` for the redirection of the output. -/
  | createFile (filename : Str)
  /-- Line 324: `CreateProcessA`. -/
  | createProcess (cmdLine workingDir : Str) (envStr : List Char)
  /-- Line 346: `GetExitCodeProcess`. -/
  | exitCheck
  /-- Line 358: `Sleep(100)`. -/
  | sleep
  deriving DecidableEq

/-- What the functions declared outside `config.cpp` answer during one activation. -/
structure RpcWorld where
  /-- The function `ParseGUID`: the exception it throws for this string, if any. -/
  parseGUID : Str → Option Str
  /-- The `n`-th call of `CoCreateInstance`: the `HRESULT` and the pointer it stores in
  `pInterface`. -/
  coCreate : Nat → Nat × Option Nat
  /-- The function `CreateFileA`: whether it gives a valid handle. -/
  createFile : Str → Bool
  /-- The function `CreateProcessA`, for a command line, a working directory and an
  environment block. -/
  createProcess : Str → Str → List Char → Bool
  /-- The `n`-th call of `GetExitCodeProcess`: `none` when the call fails, else the
  exit code it stores. -/
  exitCode : Nat → Option Nat

/-- The state of `ActivateRPCServer` when it ends or when a part of it ends. -/
structure ActivateResult where
  /-- The exception thrown, `none` for a normal end. -/
  error : Option ConfigError
  /-- The last `HRESULT` assigned to `hr`. -/
  hr : Nat
  /-- The member `pInterface`. -/
  pInterface : Option Nat
  /-- The calls made, in order. -/
  trace : List Event
  deriving DecidableEq

/-- Lines 208-213: the release of the object held so far. -/
def releaseExisting (pInterface : Option Nat) : List Event :=
  match pInterface with
  | some h => [.release h]
  | none => []

/-- Lines 296-321: the file to which the output is redirected, if one is configured. The
exception thrown, if any, and the calls made. -/
def openRedirect (rw : RpcWorld) (values : ValueMap) : Option ConfigError × List Event :=
  if HasValue values "RedirectOutput".toList then
    match GetValue values "RedirectOutput".toList with
    | .error e => (some e, [])
    | .ok filename =>
      if rw.createFile filename then (none, [.createFile filename])
      else (some (.redirectFailed filename), [.createFile filename])
  else (none, [])

/-- Lines 226-334: from the working directory to `CreateProcessA`. The exception thrown,
if any, and the calls made. -/
def spawnWorker (rw : RpcWorld) (values : ValueMap) : Option ConfigError × List Event :=
  match GetValue values "WorkingDir".toList with
  | .error e => (some e, [])
  | .ok workingDir =>
    match GetValue values "Command".toList with
    | .error e => (some e, [])
    | .ok pythonCmd =>
      if pythonCmd.length ≥ 2048 then (some .cmdLineOverflow, [])
      else
        let cmdLine := pythonCmd
        match buildEnvironment values with
        | .error e => (some e, [])
        | .ok environment =>
          let envStr := environmentBlock environment
          let redirect := openRedirect rw values
          match redirect.1 with
          | some e => (some e, redirect.2)
          | none =>
            if rw.createProcess cmdLine workingDir envStr then
              (none, redirect.2 ++ [.createProcess cmdLine workingDir envStr])
            else
              (some .createProcessFailed,
                redirect.2 ++ [.createProcess cmdLine workingDir envStr])

/-- The loop of lines 337-359 with `n` iterations left, `k` being the loop variable; `hr`
and `pInterface` are the values on entry. The trace is that of the loop alone. -/
def pollLoop (rw : RpcWorld) : Nat → Nat → Nat → Option Nat → ActivateResult
  | 0, _, hr, pInterface => { error := none, hr := hr, pInterface := pInterface, trace := [] }
  | n + 1, k, _, _ =>
    let r := rw.coCreate (k + 1)
    if r.1 ≠ REGDB_E_CLASSNOTREG then
      { error := none, hr := r.1, pInterface := r.2, trace := [.activate] }
    else
      match rw.exitCode k with
      | none =>
        { error := some .getExitCodeFailed, hr := r.1, pInterface := r.2,
          trace := [.activate, .exitCheck] }
      | some dwExitCode =>
        if dwExitCode ≠ STILL_ACTIVE then
          { error := some .processExited, hr := r.1, pInterface := r.2,
            trace := [.activate, .exitCheck] }
        else
          let rest := pollLoop rw n (k + 1) r.1 r.2
          { rest with trace := .activate :: .exitCheck :: .sleep :: rest.trace }

/-- Lines 362-367: the check of the last `hr` and the wrapping of the object. The wrapper
is identified with the pointer it wraps. -/
def finishActivation (hr : Nat) (pInterface : Option Nat) (trace : List Event) :
    ActivateResult :=
  if FAILED hr then
    { error := some (.couldNotActivate hr), hr := hr, pInterface := pInterface, trace := trace }
  else { error := none, hr := hr, pInterface := pInterface, trace := trace }

/-- The function `Config::ActivateRPCServer` for a `Config` with the values `values` and
the member `pInterface`. The call of `CoCreateInstance` before the loop is call `0`, the
call in iteration `k` of the loop is call `k + 1`. -/
def ActivateRPCServer (rw : RpcWorld) (values : ValueMap) (pInterface : Option Nat) :
    ActivateResult :=
  let released := releaseExisting pInterface
  match GetValue values "CLSID".toList with
  | .error e => { error := some e, hr := 0, pInterface := none, trace := released }
  | .ok s =>
    match rw.parseGUID s with
    | some what =>
      { error := some (.external what), hr := 0, pInterface := none, trace := released }
    | none =>
      let r := rw.coCreate 0
      if r.1 = REGDB_E_CLASSNOTREG then
        let spawned := spawnWorker rw values
        match spawned.1 with
        | some e =>
          { error := some e, hr := r.1, pInterface := r.2,
            trace := released ++ [.activate] ++ spawned.2 }
        | none =>
          let polled := pollLoop rw 600 0 r.1 r.2
          match polled.error with
          | some e =>
            { error := some e, hr := polled.hr, pInterface := polled.pInterface,
              trace := released ++ [.activate] ++ spawned.2 ++ polled.trace }
          | none =>
            finishActivation polled.hr polled.pInterface
              (released ++ [.activate] ++ spawned.2 ++ polled.trace)
      else finishActivation r.1 r.2 (released ++ [.activate])

/-! ## Auxiliary definitions for the statements -/

/-- The value a macro body resolves to (lines 103-107): `body` is the local `macro`. -/
def macroValueOf (values : ValueMap) (body : Str) : Except ConfigError Str :=
  if body.length > 0 ∧ body.head? = some '?' then .ok (GetValueD values (body.drop 1) [])
  else GetValue values body

/-- The calls of `m` iterations of the polling loop that each found the class not
registered and the process still active. -/
def pollPrefix : Nat → List Event
  | 0 => []
  | m + 1 => .activate :: .exitCheck :: .sleep :: pollPrefix m

/-- Whether a call is a call of `CreateProcessA`. -/
def Event.isSpawn : Event → Bool
  | .createProcess _ _ _ => true
  | _ => false

/-- Whether a call is a call of `CoCreateInstance`. -/
def Event.isActivate : Event → Bool
  | .activate => true
  | _ => false

/-- The empty cache. -/
def Store.empty : Store := { live := [], configs := [], next := 0 }

/-- A sample world: every file has the modification time `mtime` and the lines `lines`; the
process environment is `FOO=1`, `BAR=2`, `BAZ=3`. -/
def sampleWorld (mtime : Nat) (lines : List Str) : World where
  lastWriteTime := fun _ => mtime
  dllPath := "C:\\xl\\xlpython.dll".toList
  environmentStrings := ["FOO=1".toList, "BAR=2".toList, "BAZ=3".toList]
  newGuid := "guid".toList
  fileLines := fun _ => some lines
  fullPath := fun f => f

/-- A sample path of a configuration file. -/
def samplePath : Str := "C:\\xl\\x.cfg".toList

/-- A sample `Config`, loaded at time `1`. -/
def sampleConfig : Config :=
  { ftLastModify := 1, values := [("a".toList, "1".toList)], pInterface := none }

/-- A sample cache holding `sampleConfig` for `samplePath`. -/
def sampleStore : Store :=
  { live := [(0, sampleConfig)], configs := [(samplePath, 0)], next := 1 }

/-- The values of the configuration whose file is the one line `EnvironmentInclude=FOO,BAR`,
loaded in the environment `FOO=1`, `BAR=2`, `BAZ=3`. -/
def includeExampleValues : ValueMap :=
  match Config.construct (sampleWorld 1 ["EnvironmentInclude=FOO,BAR".toList]) 8 samplePath with
  | .ok c => c.values
  | _ => []

/-- The entry `excludeLoop` makes for `name`, if any. -/
def excludeLookup (exclude : List Str) (values : ValueMap) (name : Str) : Option Str :=
  if name ≠ [] ∧ name ∉ exclude then mfind values ("Environment:".toList ++ name) else none

/-- The names `excludeLoop` drops: the uppercased items of `EnvironmentExclude`. -/
def excludedNames (values : ValueMap) : List Str :=
  match mfind values "EnvironmentExclude".toList with
  | some s => (strsplit s ",".toList).map strupper
  | none => []

/-- A configuration without file lines, loaded in an environment that holds the string
`=C:=C:\xl` (as the environment block of a Windows process does) and `FOO=1`. -/
def driveExampleValues : ValueMap :=
  match Config.construct
    { sampleWorld 1 [] with environmentStrings := ["=C:=C:\\xl".toList, "FOO=1".toList] }
    8 samplePath with
  | .ok c => c.values
  | _ => []

/-- The values of the configuration whose file is the one line `EnvironmentExclude=BAZ`,
loaded in the environment `FOO=1`, `BAR=2`, `BAZ=3`. -/
def excludeExampleValues : ValueMap :=
  match Config.construct (sampleWorld 1 ["EnvironmentExclude=BAZ".toList]) 8 samplePath with
  | .ok c => c.values
  | _ => []

/-- The string `name=value` followed by the character `0`, for an entry of the mapping. -/
def envEntry (e : Str × Str) : List Char := e.1 ++ ['='] ++ e.2 ++ [NUL]

/-- The values of the configuration whose file is the one line `EnvironmentInclude=NOPE`,
loaded in the environment `FOO=1`, `BAR=2`, `BAZ=3`. -/
def emptyExampleValues : ValueMap :=
  match Config.construct (sampleWorld 1 ["EnvironmentInclude=NOPE".toList]) 8 samplePath with
  | .ok c => c.values
  | _ => []

/-- Sample values for an activation: `CLSID`, `Command`, `WorkingDir` and the environment
variable `FOO=1`. -/
def activateExampleValues : ValueMap :=
  [("CLSID".toList, "id".toList), ("Command".toList, "worker.exe".toList),
    ("WorkingDir".toList, ".".toList), ("Environment:FOO".toList, "1".toList)]

/-- A sample world for an activation: call `n` of `CoCreateInstance` gives `hrs n`, and
call `n` of `GetExitCodeProcess` gives `codes n`. -/
def sampleRpc (hrs : Nat → Nat) (codes : Nat → Nat) : RpcWorld where
  parseGUID := fun _ => none
  coCreate := fun n => (hrs n, if FAILED (hrs n) then none else some 7)
  createFile := fun _ => true
  createProcess := fun _ _ _ => true
  exitCode := fun n => some (codes n)

/-- The `Config` whose file is the one line `Command=$(ConfigDir)\run.exe`. -/
def commandExample : Outcome Config :=
  Config.construct (sampleWorld 1 ["Command=$(ConfigDir)\\run.exe".toList]) 8 samplePath

/-! ## Lemmas: finite maps -/

section Maps

variable {κ α : Type} [DecidableEq κ]

theorem mfind_mset_same (m : List (κ × α)) (k : κ) (v : α) :
    mfind (mset m k v) k = some v := by
  induction m with
  | nil => simp [mset, mfind]
  | cons hd tl ih =>
    obtain ⟨k', v'⟩ := hd
    by_cases h : k' = k
    · simp [mset, mfind, h]
    · simp [mset, mfind, h, ih]

theorem mfind_mset_other (m : List (κ × α)) (k k' : κ) (v : α) (h : k ≠ k') :
    mfind (mset m k v) k' = mfind m k' := by
  induction m with
  | nil => simp [mset, mfind, h]
  | cons hd tl ih =>
    obtain ⟨k₀, v₀⟩ := hd
    by_cases h₀ : k₀ = k
    · subst h₀
      simp [mset, mfind, h]
    · by_cases h₁ : k₀ = k'
      · subst h₁
        simp [mset, mfind, h₀]
      · simp [mset, mfind, h₀, h₁, ih]

theorem mfind_merase_same (m : List (κ × α)) (k : κ) : mfind (merase m k) k = none := by
  induction m with
  | nil => simp [merase, mfind]
  | cons hd tl ih =>
    obtain ⟨k₀, v₀⟩ := hd
    by_cases h₀ : k₀ = k
    · simp [merase, h₀, ih]
    · simp [merase, mfind, h₀, ih]

theorem mfind_merase_other (m : List (κ × α)) (k k' : κ) (h : k ≠ k') :
    mfind (merase m k) k' = mfind m k' := by
  induction m with
  | nil => simp [merase, mfind]
  | cons hd tl ih =>
    obtain ⟨k₀, v₀⟩ := hd
    by_cases h₀ : k₀ = k
    · subst h₀
      simp [merase, mfind, h, ih]
    · by_cases h₁ : k₀ = k'
      · subst h₁
        simp [merase, mfind, h₀]
      · simp [merase, mfind, h₀, h₁, ih]

theorem mfind_eq_none_iff (m : List (κ × α)) (k : κ) :
    mfind m k = none ↔ k ∉ m.map Prod.fst := by
  induction m with
  | nil => simp [mfind]
  | cons hd tl ih =>
    obtain ⟨k₀, v₀⟩ := hd
    by_cases h₀ : k₀ = k
    · simp [mfind, h₀]
    · have h₁ : ¬ k = k₀ := fun h => h₀ h.symm
      simp [mfind, h₀, h₁, ih]

theorem keys_mset_of_mem (m : List (κ × α)) (k : κ) (v : α) (h : k ∈ m.map Prod.fst) :
    (mset m k v).map Prod.fst = m.map Prod.fst := by
  induction m with
  | nil => simp at h
  | cons hd tl ih =>
    obtain ⟨k₀, v₀⟩ := hd
    by_cases h₀ : k₀ = k
    · simp [mset, h₀]
    · have h₁ : ¬ k = k₀ := fun h => h₀ h.symm
      have : k ∈ tl.map Prod.fst := by simpa [h₁] using h
      simp [mset, h₀, ih this]

theorem keys_mset_of_not_mem (m : List (κ × α)) (k : κ) (v : α) (h : k ∉ m.map Prod.fst) :
    (mset m k v).map Prod.fst = m.map Prod.fst ++ [k] := by
  induction m with
  | nil => simp [mset]
  | cons hd tl ih =>
    obtain ⟨k₀, v₀⟩ := hd
    have h₀ : ¬ k₀ = k := by
      intro e; apply h; simp [e]
    have : k ∉ tl.map Prod.fst := by
      intro e; apply h; simp only [List.map_cons, List.mem_cons]; exact Or.inr e
    simp [mset, h₀, ih this]

theorem keys_nodup_mset (m : List (κ × α)) (k : κ) (v : α) (h : (m.map Prod.fst).Nodup) :
    ((mset m k v).map Prod.fst).Nodup := by
  by_cases hk : k ∈ m.map Prod.fst
  · rw [keys_mset_of_mem m k v hk]; exact h
  · rw [keys_mset_of_not_mem m k v hk]
    exact List.Nodup.append h (List.nodup_singleton k) (by simpa using hk)

theorem keys_merase_sub (m : List (κ × α)) (k k' : κ) (h : k' ∈ (merase m k).map Prod.fst) :
    k' ∈ m.map Prod.fst := by
  induction m with
  | nil => simp [merase] at h
  | cons hd tl ih =>
    obtain ⟨k₀, v₀⟩ := hd
    by_cases h₀ : k₀ = k
    · simp only [merase, h₀, if_true] at h
      simp only [List.map_cons, List.mem_cons]; exact Or.inr (ih h)
    · simp only [merase, h₀, if_false, List.map_cons, List.mem_cons] at h
      simp only [List.map_cons, List.mem_cons]
      exact h.imp id ih

theorem keys_nodup_merase (m : List (κ × α)) (k : κ) (h : (m.map Prod.fst).Nodup) :
    ((merase m k).map Prod.fst).Nodup := by
  induction m with
  | nil => simp [merase]
  | cons hd tl ih =>
    obtain ⟨k₀, v₀⟩ := hd
    simp only [List.map_cons, List.nodup_cons] at h
    by_cases h₀ : k₀ = k
    · simpa [merase, h₀] using ih h.2
    · simp only [merase, h₀, if_false, List.map_cons, List.nodup_cons]
      exact ⟨fun e => h.1 (keys_merase_sub tl k k₀ e), ih h.2⟩

theorem mem_keys_mset (m : List (κ × α)) (k k' : κ) (v : α)
    (h : k' ∈ (mset m k v).map Prod.fst) : k' = k ∨ k' ∈ m.map Prod.fst := by
  by_cases hk : k ∈ m.map Prod.fst
  · rw [keys_mset_of_mem m k v hk] at h; exact Or.inr h
  · rw [keys_mset_of_not_mem m k v hk] at h
    simp only [List.mem_append, List.mem_singleton] at h
    exact h.symm

theorem mem_keys_of_mfind {κ α : Type} [DecidableEq κ] (m : List (κ × α)) (k : κ) (v : α)
    (h : mfind m k = some v) : k ∈ m.map Prod.fst := by
  by_contra hn
  rw [(mfind_eq_none_iff m k).mpr hn] at h
  exact Option.noConfusion h

theorem mem_vals_of_mfind {κ α : Type} [DecidableEq κ] (m : List (κ × α)) (k : κ) (v : α)
    (h : mfind m k = some v) : v ∈ m.map Prod.snd := by
  induction m with
  | nil => exact Option.noConfusion h
  | cons hd tl ih =>
    obtain ⟨k₀, v₀⟩ := hd
    by_cases h₀ : k₀ = k
    · simp only [mfind, h₀, if_true, Option.some.injEq] at h
      simp [h]
    · simp only [mfind, h₀, if_false] at h
      simp only [List.map_cons, List.mem_cons]
      exact Or.inr (ih h)

theorem mem_vals_mset {κ α : Type} [DecidableEq κ] (m : List (κ × α)) (k : κ) (v v' : α)
    (h : v' ∈ (mset m k v).map Prod.snd) : v' = v ∨ v' ∈ m.map Prod.snd := by
  induction m with
  | nil => simpa [mset] using h
  | cons hd tl ih =>
    obtain ⟨k₀, v₀⟩ := hd
    by_cases h₀ : k₀ = k
    · simp only [mset, h₀, if_true, List.map_cons, List.mem_cons] at h
      simp only [List.map_cons, List.mem_cons]
      rcases h with h | h
      · exact Or.inl h
      · exact Or.inr (Or.inr h)
    · simp only [mset, h₀, if_false, List.map_cons, List.mem_cons] at h
      simp only [List.map_cons, List.mem_cons]
      rcases h with h | h
      · exact Or.inr (Or.inl h)
      · exact (ih h).imp id Or.inr

theorem filter_key_nil {κ α : Type} [DecidableEq κ] (m : List (κ × α)) (k : κ)
    (h : k ∉ m.map Prod.fst) : m.filter (fun e => decide (e.1 = k)) = [] := by
  rw [List.filter_eq_nil_iff]
  intro e he hk
  apply h
  rw [List.mem_map]
  exact ⟨e, he, by simpa using hk⟩

theorem filter_key_length {κ α : Type} [DecidableEq κ] (m : List (κ × α)) (k : κ)
    (hnd : (m.map Prod.fst).Nodup) (hmem : k ∈ m.map Prod.fst) :
    (m.filter (fun e => decide (e.1 = k))).length = 1 := by
  induction m with
  | nil => simp at hmem
  | cons hd tl ih =>
    obtain ⟨k₀, v₀⟩ := hd
    simp only [List.map_cons, List.nodup_cons] at hnd
    by_cases h₀ : k₀ = k
    · subst h₀
      simp [List.filter_cons, filter_key_nil tl k₀ hnd.1]
    · have h₁ : ¬ k = k₀ := fun e => h₀ e.symm
      have : k ∈ tl.map Prod.fst := by simpa [h₁] using hmem
      simp [List.filter_cons, h₀, ih hnd.2 this]

end Maps

/-! ## Lemmas: `size_t` arithmetic -/

theorem uadd_eq (a b : Nat) (h : a + b < sizeMod) : uadd a b = a + b := by
  unfold uadd; exact Nat.mod_eq_of_lt h

theorem usub_eq (a b : Nat) (hb : b ≤ a) (ha : a < sizeMod) : usub a b = a - b := by
  unfold usub
  have : a + sizeMod - b = (a - b) + sizeMod := by omega
  rw [this, Nat.add_mod_right]
  exact Nat.mod_eq_of_lt (by omega)

theorem npos_lt_sizeMod : npos < sizeMod := by decide

/-! ## Lemmas: searching in strings -/

theorem startsWith_single (c : Char) (s : Str) :
    startsWith [c] s = true ↔ s.head? = some c := by
  cases s with
  | nil => simp [startsWith]
  | cons d ds =>
    have : startsWith [c] (d :: ds) = (c == d) := by
      cases ds <;> simp [startsWith]
    rw [this]
    simp only [beq_iff_eq, List.head?_cons, Option.some.injEq]
    exact eq_comm

theorem startsWith_iff (needle s : Str) : startsWith needle s = true ↔ needle <+: s := by
  induction needle generalizing s with
  | nil => simp [startsWith]
  | cons a as ih =>
    cases s with
    | nil => simp [startsWith]
    | cons c cs => simp [startsWith, ih, List.cons_prefix_cons]

theorem srfind_single_none (c : Char) (s : Str) : srfind [c] s = none ↔ c ∉ s := by
  induction s with
  | nil => simp [srfind, startsWith]
  | cons d ds ih =>
    unfold srfind
    cases h : srfind [c] ds with
    | some i =>
      have : c ∈ ds := by
        by_contra hc
        rw [ih.mpr hc] at h
        exact Option.noConfusion h
      simp [this]
    | none =>
      have hc : c ∉ ds := ih.mp h
      by_cases hd : d = c
      · have : startsWith [c] (d :: ds) = true := by
          rw [startsWith_single]; simp [hd]
        rw [this]
        simp [hd]
      · have : startsWith [c] (d :: ds) = false := by
          rw [Bool.eq_false_iff, Ne, startsWith_single]; simp [hd]
        have hd' : ¬ c = d := fun e => hd e.symm
        simp [this, hc, hd']

theorem srfind_single_some (c : Char) (s : Str) (i : Nat) (h : srfind [c] s = some i) :
    i < s.length ∧ s = s.take i ++ c :: s.drop (i + 1) ∧ c ∉ s.drop (i + 1) := by
  induction s generalizing i with
  | nil => simp [srfind, startsWith] at h
  | cons d ds ih =>
    unfold srfind at h
    cases hr : srfind [c] ds with
    | some j =>
      rw [hr] at h
      simp only [Option.some.injEq] at h
      subst h
      obtain ⟨h1, h2, h3⟩ := ih j hr
      refine ⟨by simpa using h1, ?_, by simpa using h3⟩
      simp only [List.take_succ_cons, List.drop_succ_cons, List.cons_append]
      rw [← h2]
    | none =>
      rw [hr] at h
      simp only at h
      split at h
      · rename_i hs
        simp only [Option.some.injEq] at h
        subst h
        rw [startsWith_single] at hs
        simp only [List.head?_cons, Option.some.injEq] at hs
        subst hs
        refine ⟨by simp, by simp, ?_⟩
        simpa using (srfind_single_none d ds).mp hr
      · exact Option.noConfusion h

theorem sfind_single_none (c : Char) (s : Str) : sfind [c] s = none ↔ c ∉ s := by
  induction s with
  | nil => simp [sfind, startsWith]
  | cons d ds ih =>
    unfold sfind
    by_cases hd : d = c
    · have : startsWith [c] (d :: ds) = true := by
        rw [startsWith_single]; simp [hd]
      rw [this]
      simp [hd]
    · have : startsWith [c] (d :: ds) = false := by
        rw [Bool.eq_false_iff, Ne, startsWith_single]; simp [hd]
      have hd' : ¬ c = d := fun e => hd e.symm
      simp [this, hd', ih]

theorem sfind_single_some (c : Char) (s : Str) (i : Nat) (h : sfind [c] s = some i) :
    i < s.length ∧ s = s.take i ++ c :: s.drop (i + 1) ∧ c ∉ s.take i := by
  induction s generalizing i with
  | nil => simp [sfind, startsWith] at h
  | cons d ds ih =>
    unfold sfind at h
    split at h
    · rename_i hs
      simp only [Option.some.injEq] at h
      subst h
      rw [startsWith_single] at hs
      simp only [List.head?_cons, Option.some.injEq] at hs
      subst hs
      simp
    · rename_i hs
      cases hr : sfind [c] ds with
      | none => rw [hr] at h; exact Option.noConfusion h
      | some j =>
        rw [hr] at h
        simp only [Option.map_some', Option.some.injEq] at h
        subst h
        obtain ⟨h1, h2, h3⟩ := ih j hr
        have hd : ¬ c = d := by
          intro e
          apply hs
          rw [startsWith_single]; simp [e]
        refine ⟨by simpa using h1, ?_, ?_⟩
        · simp only [List.take_succ_cons, List.drop_succ_cons, List.cons_append]
          rw [← h2]
        · simp only [List.take_succ_cons, List.mem_cons, not_or]
          exact ⟨hd, h3⟩

theorem rfind_single_npos (c : Char) (s : Str) (hlen : s.length < npos) :
    rfind s [c] = npos ↔ c ∉ s := by
  unfold rfind
  cases h : srfind [c] s with
  | none => simpa using (srfind_single_none c s).mp h
  | some i =>
    have hi := (srfind_single_some c s i h).1
    have hc : c ∈ s := by
      by_contra hc
      rw [(srfind_single_none c s).mpr hc] at h
      exact Option.noConfusion h
    simp only [hc, not_true_eq_false, iff_false]
    omega

theorem rfind_single_spec (c : Char) (s : Str) (hc : c ∈ s) :
    rfind s [c] < s.length ∧ s = s.take (rfind s [c]) ++ c :: s.drop (rfind s [c] + 1) ∧
      c ∉ s.drop (rfind s [c] + 1) := by
  unfold rfind
  cases h : srfind [c] s with
  | none => exact absurd hc ((srfind_single_none c s).mp h)
  | some i => exact srfind_single_some c s i h

theorem find_single_npos (c : Char) (s : Str) (hlen : s.length < npos) :
    find s [c] 0 = npos ↔ c ∉ s := by
  unfold find
  rw [List.drop_zero]
  cases h : sfind [c] s with
  | none => simpa using (sfind_single_none c s).mp h
  | some i =>
    have hi := (sfind_single_some c s i h).1
    have hc : c ∈ s := by
      by_contra hc
      rw [(sfind_single_none c s).mpr hc] at h
      exact Option.noConfusion h
    simp only [hc, not_true_eq_false, iff_false]
    omega

theorem find_single_spec (c : Char) (s : Str) (hc : c ∈ s) :
    find s [c] 0 < s.length ∧ s = s.take (find s [c] 0) ++ c :: s.drop (find s [c] 0 + 1) ∧
      c ∉ s.take (find s [c] 0) := by
  unfold find
  rw [List.drop_zero]
  cases h : sfind [c] s with
  | none => exact absurd hc ((sfind_single_none c s).mp h)
  | some i => simpa using sfind_single_some c s i h

theorem sfind_single_append (c : Char) (a b : Str) (h : c ∉ a) :
    sfind [c] (a ++ c :: b) = some a.length := by
  induction a with
  | nil =>
    have : startsWith [c] (c :: b) = true := by rw [startsWith_single]; simp
    simp [sfind, this]
  | cons d ds ih =>
    simp only [List.mem_cons, not_or] at h
    have : startsWith [c] (d :: (ds ++ c :: b)) = false := by
      rw [Bool.eq_false_iff, Ne, startsWith_single]
      simp only [List.head?_cons, Option.some.injEq]
      exact fun e => h.1 e.symm
    rw [List.cons_append]
    unfold sfind
    rw [this, ih h.2]
    simp

theorem not_infix_of_cons (needle : Str) (c : Char) (s : Str) (h : ¬ needle <:+: c :: s) :
    ¬ needle <:+: s := fun e => h (e.trans (List.infix_cons (List.infix_refl s)))

theorem sfind_macro_start (pre rest : Str) (h : ¬ "$(".toList <:+: pre) :
    sfind "$(".toList (pre ++ '$' :: '(' :: rest) = some pre.length := by
  have hs : "$(".toList = ['$', '('] := by decide
  rw [hs] at h ⊢
  induction pre with
  | nil => simp [sfind, startsWith]
  | cons d ds ih =>
    have hn : startsWith ['$', '('] (d :: ds ++ '$' :: '(' :: rest) = false := by
      rw [Bool.eq_false_iff, Ne, startsWith_iff]
      intro hp
      cases ds with
      | nil =>
        simp [List.cons_prefix_cons] at hp
      | cons e es =>
        simp only [List.cons_append, List.cons_prefix_cons] at hp
        apply h
        obtain ⟨h1, h2, -⟩ := hp
        subst h1; subst h2
        exact ⟨[], es, by simp⟩
    rw [List.cons_append] at hn ⊢
    unfold sfind
    rw [hn, ih (not_infix_of_cons _ d ds h)]
    simp

theorem sfind_none_of_not_infix (needle s : Str) (h : ¬ needle <:+: s) : sfind needle s = none := by
  induction s with
  | nil =>
    have : startsWith needle [] = false := by
      rw [Bool.eq_false_iff, Ne, startsWith_iff]
      intro hp
      exact h hp.isInfix
    simp [sfind, this]
  | cons d ds ih =>
    have : startsWith needle (d :: ds) = false := by
      rw [Bool.eq_false_iff, Ne, startsWith_iff]
      intro hp
      exact h hp.isInfix
    simp [sfind, this, ih (not_infix_of_cons _ d ds h)]

theorem sfind_some_infix (needle s : Str) (i : Nat) (h : sfind needle s = some i) :
    needle <:+: s := by
  induction s generalizing i with
  | nil =>
    simp only [sfind] at h
    split at h
    · rename_i hs
      exact ((startsWith_iff _ _).mp hs).isInfix
    · exact Option.noConfusion h
  | cons d ds ih =>
    simp only [sfind] at h
    split at h
    · rename_i hs
      exact ((startsWith_iff _ _).mp hs).isInfix
    · cases hr : sfind needle ds with
      | none => rw [hr] at h; exact Option.noConfusion h
      | some j => exact (ih j hr).trans (List.infix_cons (List.infix_refl ds))

/-! ## Lemmas: `SplitPath` -/

theorem key_ne (pfx a b : Str) (h : a ≠ b) : pfx ++ a ≠ pfx ++ b :=
  fun e => h (List.append_cancel_left e)

theorem SplitPath_find_Path (path : Str) (values : ValueMap) (pfx : Str) :
    mfind (SplitPath path values pfx) (pfx ++ "Path".toList) = some path := by
  unfold SplitPath
  simp only []
  split <;> split <;>
    simp [mfind_mset_other, mfind_mset_same, key_ne]

theorem SplitPath_find_FileName (path : Str) (values : ValueMap) (pfx : Str) :
    mfind (SplitPath path values pfx) (pfx ++ "FileName".toList) = some (fileNameOf path) := by
  unfold SplitPath fileNameOf
  simp only []
  split <;> split <;>
    simp_all [mfind_mset_other, mfind_mset_same, key_ne]

theorem SplitPath_find_Dir (path : Str) (values : ValueMap) (pfx : Str)
    (h : rfind path "\\".toList ≠ npos) :
    mfind (SplitPath path values pfx) (pfx ++ "Dir".toList) =
      some (substr path 0 (rfind path "\\".toList)) := by
  unfold SplitPath
  simp only []
  split <;> split <;>
    simp_all [mfind_mset_other, mfind_mset_same, key_ne]

theorem SplitPath_find_Name (path : Str) (values : ValueMap) (pfx : Str) :
    mfind (SplitPath path values pfx) (pfx ++ "Name".toList) =
      some (if rfind (fileNameOf path) ".".toList ≠ npos then
        substr (fileNameOf path) 0 (rfind (fileNameOf path) ".".toList) else fileNameOf path) := by
  unfold SplitPath fileNameOf
  simp only []
  split <;> split <;>
    simp_all [mfind_mset_other, mfind_mset_same, key_ne]

theorem SplitPath_find_Ext (path : Str) (values : ValueMap) (pfx : Str) :
    mfind (SplitPath path values pfx) (pfx ++ "Ext".toList) =
      some (if rfind (fileNameOf path) ".".toList ≠ npos then
        substr (fileNameOf path) (uadd (rfind (fileNameOf path) ".".toList) 1)
          (usub path.length (rfind (fileNameOf path) ".".toList)) else []) := by
  unfold SplitPath fileNameOf
  simp only []
  split <;> split <;>
    simp_all [mfind_mset_other, mfind_mset_same, key_ne]

theorem fileNameOf_of_sep (path : Str) (hlen : path.length < npos)
    (hsep : Char.ofNat 92 ∈ path) :
    rfind path "\\".toList ≠ npos ∧
      fileNameOf path = path.drop (rfind path "\\".toList + 1) ∧
      path = path.take (rfind path "\\".toList) ++ "\\".toList ++ fileNameOf path ∧
      Char.ofNat 92 ∉ fileNameOf path := by
  have hs : "\\".toList = [Char.ofNat 92] := by decide
  rw [hs]
  obtain ⟨h1, h2, h3⟩ := rfind_single_spec (Char.ofNat 92) path hsep
  have hne : rfind path [Char.ofNat 92] ≠ npos := by omega
  have hsz : npos < sizeMod := npos_lt_sizeMod
  have hfn : fileNameOf path = path.drop (rfind path [Char.ofNat 92] + 1) := by
    unfold fileNameOf
    rw [hs, if_neg hne, uadd_eq _ _ (by omega), usub_eq _ _ (by omega) (by omega)]
    unfold substr
    apply List.take_of_length_le
    rw [List.length_drop]
    omega
  refine ⟨hne, hfn, ?_, ?_⟩
  · rw [hfn]
    simpa using h2
  · rw [hfn]
    exact h3

theorem fileNameOf_no_sep (path : Str) (hlen : path.length < npos)
    (hsep : Char.ofNat 92 ∉ path) : fileNameOf path = path := by
  have hs : "\\".toList = [Char.ofNat 92] := by decide
  unfold fileNameOf
  rw [hs, if_pos ((rfind_single_npos _ path hlen).mpr hsep)]

theorem fileNameOf_length_le (path : Str) (hlen : path.length < npos) :
    (fileNameOf path).length ≤ path.length := by
  by_cases hsep : Char.ofNat 92 ∈ path
  · rw [(fileNameOf_of_sep path hlen hsep).2.1, List.length_drop]
    omega
  · rw [fileNameOf_no_sep path hlen hsep]

/-! ## Lemmas: the macro loop -/

theorem macroStep_closed (values : ValueMap) (line pre body post : Str)
    (hpre : ¬ "$(".toList <:+: pre) (hbody : ')' ∉ body)
    (hlen : (pre ++ "$(".toList ++ body ++ ")".toList ++ post).length < npos) :
    macroStep values line (pre ++ "$(".toList ++ body ++ ")".toList ++ post) =
      match macroValueOf values body with
      | .ok mv => .next (pre ++ mv ++ post)
      | .error e => .fail e := by
  have hsz : npos < sizeMod := npos_lt_sizeMod
  have hv : pre ++ "$(".toList ++ body ++ ")".toList ++ post =
      pre ++ '$' :: '(' :: (body ++ ')' :: post) := by
    have : "$(".toList = ['$', '('] := by decide
    have h2 : ")".toList = [')'] := by decide
    rw [this, h2]; simp
  rw [hv] at hlen ⊢
  simp only [List.length_append, List.length_cons] at hlen
  have hstart : find (pre ++ '$' :: '(' :: (body ++ ')' :: post)) "$(".toList 0 = pre.length := by
    unfold find
    rw [List.drop_zero, sfind_macro_start pre _ hpre]
    simp
  have hend : find (pre ++ '$' :: '(' :: (body ++ ')' :: post)) ")".toList pre.length =
      pre.length + (body.length + 2) := by
    unfold find
    have h2 : ")".toList = [')'] := by decide
    rw [h2, List.drop_left]
    have : '$' :: '(' :: (body ++ ')' :: post) = ('$' :: '(' :: body) ++ ')' :: post := by simp
    rw [this, sfind_single_append ')' ('$' :: '(' :: body) post (by simp [hbody])]
    simp
  unfold macroStep
  dsimp only
  rw [hstart, hend]
  have hne : pre.length ≠ npos := by omega
  rw [if_neg hne, if_neg hne]
  have e1 : usub (pre.length + (body.length + 2)) pre.length = body.length + 2 := by
    rw [usub_eq _ _ (by omega) (by omega)]; omega
  have e2 : usub (body.length + 2) 2 = body.length := by
    rw [usub_eq _ _ (by omega) (by omega)]; omega
  have e3 : uadd pre.length 2 = pre.length + 2 := uadd_eq _ _ (by omega)
  have e4 : uadd (body.length + 2) 1 = body.length + 3 := uadd_eq _ _ (by omega)
  rw [e1, e2, e3, e4]
  have hmac : substr (pre ++ '$' :: '(' :: (body ++ ')' :: post)) (pre.length + 2) body.length
      = body := by
    unfold substr
    rw [← List.drop_drop, List.drop_left]
    simp
  rw [hmac]
  have hsub : substr body 1 npos = body.drop 1 := by
    unfold substr
    apply List.take_of_length_le
    rw [List.length_drop]; omega
  rw [hsub]
  have hrep : ∀ mv, replace (pre ++ '$' :: '(' :: (body ++ ')' :: post)) pre.length
      (body.length + 3) mv = pre ++ mv ++ post := by
    intro mv
    unfold replace
    rw [List.take_left, List.drop_left]
    have : '$' :: '(' :: (body ++ ')' :: post) = ('$' :: '(' :: (body ++ [')'])) ++ post := by
      simp
    rw [this]
    have hl : ('$' :: '(' :: (body ++ [')'])).length = body.length + 3 := by simp
    rw [← hl, List.drop_left]
  simp only [hrep]
  unfold macroValueOf
  rfl

theorem macroStep_fail (values : ValueMap) (line value : Str) (e : ConfigError)
    (h : macroStep values line value = .fail e) : ∃ k, e = .keyNotFound k := by
  unfold macroStep at h
  dsimp only at h
  split at h
  · exact MacroStep.noConfusion h
  · split at h
    · exact MacroStep.noConfusion h
    · rename_i e' he
      split at he
      · exact Except.noConfusion he
      · unfold GetValue at he
        split at he
        · simp only [Except.error.injEq] at he
          simp only [MacroStep.fail.injEq] at h
          exact ⟨_, by rw [← h, ← he]⟩
        · exact Except.noConfusion he

theorem expandMacros_fail (values : ValueMap) (line : Str) (fuel : Nat) (value : Str)
    (e : ConfigError) (h : expandMacros values line fuel value = .fail e) :
    ∃ k, e = .keyNotFound k := by
  induction fuel generalizing value with
  | zero => exact Outcome.noConfusion h
  | succ n ih =>
    unfold expandMacros at h
    split at h
    · exact Outcome.noConfusion h
    · exact ih _ h
    · rename_i e' he
      simp only [Outcome.fail.injEq] at h
      subst h
      exact macroStep_fail values line value e' he

theorem macroValueOf_optional_absent (values : ValueMap) (name : Str)
    (h : mfind values name = none) : macroValueOf values ('?' :: name) = .ok [] := by
  unfold macroValueOf GetValueD
  simp [h]

theorem macroValueOf_required_absent (values : ValueMap) (name : Str)
    (h : mfind values name = none) (hq : name.head? ≠ some '?') :
    macroValueOf values name = .error (.keyNotFound name) := by
  unfold macroValueOf GetValue
  simp [h, hq]

theorem expandMacros_fixed (values : ValueMap) (line value : Str)
    (h : macroStep values line value = .next value) (fuel : Nat) :
    expandMacros values line fuel value = .timeout := by
  induction fuel with
  | zero => rfl
  | succ n ih => rw [expandMacros, h]; exact ih

/-! ## Lemmas: the line loop -/

theorem strtrim_eq (s : Str) : strtrim s = (s.dropWhile isSpace).rdropWhile isSpace := rfl

theorem strtrim_length_le (s : Str) : (strtrim s).length ≤ s.length := by
  rw [strtrim_eq]
  exact (List.rdropWhile_prefix isSpace _).length_le.trans (List.dropWhile_suffix isSpace).length_le

theorem head?_rdropWhile (p : Char → Bool) (c : Char) (t : Str) (hc : ¬ p c = true) :
    ((c :: t).rdropWhile p).head? = some c := by
  have hpre : (c :: t).rdropWhile p <+: c :: t := List.rdropWhile_prefix p _
  cases h : (c :: t).rdropWhile p with
  | nil =>
    rw [List.rdropWhile_eq_nil_iff] at h
    exact absurd (h c (List.mem_cons_self c t)) hc
  | cons d ds =>
    rw [h, List.cons_prefix_cons] at hpre
    simp [hpre.1]

theorem head?_strtrim (s : Str) :
    (strtrim s).head? = s.find? (fun c => !isSpace c) := by
  rw [List.find?_not_eq_head?_dropWhile, strtrim_eq]
  cases h : s.dropWhile isSpace with
  | nil => simp
  | cons c t =>
    have hc : isSpace c = false := by
      have := List.head?_dropWhile_not isSpace s
      rw [h] at this
      simpa using this
    rw [head?_rdropWhile isSpace c t (by simp [hc])]
    rfl

theorem strtrim_eq_nil_iff (s : Str) : strtrim s = [] ↔ ∀ c ∈ s, isSpace c = true := by
  rw [strtrim_eq, List.rdropWhile_eq_nil_iff]
  constructor
  · intro h
    have : s.dropWhile isSpace = [] := by
      cases hd : s.dropWhile isSpace with
      | nil => rfl
      | cons c t =>
        have hc := List.head?_dropWhile_not isSpace s
        rw [hd] at hc
        have : isSpace c = true := h c (by rw [hd]; exact List.mem_cons_self c t)
        simp only [List.head?_cons] at hc
        rw [this] at hc
        exact Bool.noConfusion hc
    exact List.dropWhile_eq_nil_iff.mp this
  · intro h c hc
    exact h c ((List.dropWhile_suffix isSpace).subset hc)

theorem parseLine_skip_iff (raw : Str) :
    parseLine raw = .skip ↔ (strtrim raw = [] ∨ (strtrim raw).head? = some '#') := by
  unfold parseLine
  dsimp only
  constructor
  · intro h
    by_contra hn
    rw [if_neg hn] at h
    split at h <;> exact LineKind.noConfusion h
  · intro h
    rw [if_pos h]

theorem parseLine_malformed_iff (raw : Str) (hlen : raw.length < npos) :
    parseLine raw = .malformed ↔
      (strtrim raw ≠ [] ∧ (strtrim raw).head? ≠ some '#' ∧ '=' ∉ strtrim raw) := by
  have hs : "=".toList = ['='] := by decide
  have hl : (strtrim raw).length < npos := lt_of_le_of_lt (strtrim_length_le raw) hlen
  unfold parseLine
  dsimp only
  rw [hs]
  constructor
  · intro h
    split at h
    · exact LineKind.noConfusion h
    · rename_i hn
      split at h
      · rename_i he
        rw [not_or] at hn
        exact ⟨hn.1, hn.2, (find_single_npos '=' _ hl).mp he⟩
      · exact LineKind.noConfusion h
  · rintro ⟨h1, h2, h3⟩
    rw [if_neg (by rw [not_or]; exact ⟨h1, h2⟩), if_pos ((find_single_npos '=' _ hl).mpr h3)]

theorem processLine_malformed_iff (fuel : Nat) (values : ValueMap) (raw : Str)
    (hlen : raw.length < npos) :
    processLine fuel values raw = .fail .malformedLine ↔
      (strtrim raw ≠ [] ∧ (strtrim raw).head? ≠ some '#' ∧ '=' ∉ strtrim raw) := by
  rw [← parseLine_malformed_iff raw hlen]
  unfold processLine
  constructor
  · intro h
    split at h
    · exact Outcome.noConfusion h
    · assumption
    · rename_i line key value _
      cases he : expandMacros values line fuel value with
      | ok v => rw [he] at h; exact Outcome.noConfusion h
      | fail e =>
        rw [he] at h
        simp only [Outcome.bind, Outcome.fail.injEq] at h
        subst h
        obtain ⟨k, hk⟩ := expandMacros_fail values line fuel value _ he
        exact ConfigError.noConfusion hk
      | timeout => rw [he] at h; exact Outcome.noConfusion h
      | undefined => rw [he] at h; exact Outcome.noConfusion h
  · intro h
    rw [h]

theorem loadLines_append (fuel : Nat) (values : ValueMap) (pre post : List Str) :
    loadLines fuel values (pre ++ post) =
      (loadLines fuel values pre).bind fun mid => loadLines fuel mid post := by
  induction pre generalizing values with
  | nil => rfl
  | cons raw rest ih =>
    rw [List.cons_append, loadLines, loadLines]
    cases processLine fuel values raw with
    | ok v => exact ih v
    | fail e => rfl
    | timeout => rfl
    | undefined => rfl

theorem loadLines_malformed_iff (fuel : Nat) (values : ValueMap) (lines : List Str)
    (hlen : ∀ raw ∈ lines, raw.length < npos) :
    loadLines fuel values lines = .fail .malformedLine ↔
      ∃ (pre : List Str) (raw : Str) (post : List Str) (mid : ValueMap),
        lines = pre ++ raw :: post ∧ loadLines fuel values pre = .ok mid ∧
        strtrim raw ≠ [] ∧ (strtrim raw).head? ≠ some '#' ∧ '=' ∉ strtrim raw := by
  induction lines generalizing values with
  | nil =>
    constructor
    · intro h; exact Outcome.noConfusion h
    · rintro ⟨pre, raw, post, mid, h, -⟩
      simp at h
  | cons r rest ih =>
    have hr : r.length < npos := hlen r (List.mem_cons_self r rest)
    have hrest : ∀ raw ∈ rest, raw.length < npos :=
      fun raw h => hlen raw (List.mem_cons_of_mem r h)
    constructor
    · intro h
      rw [loadLines] at h
      cases hp : processLine fuel values r with
      | ok v =>
        rw [hp] at h
        obtain ⟨pre, raw, post, mid, h1, h2, h3⟩ := (ih v hrest).mp h
        refine ⟨r :: pre, raw, post, mid, by rw [h1]; rfl, ?_, h3⟩
        rw [loadLines, hp]
        exact h2
      | fail e =>
        rw [hp] at h
        simp only [Outcome.bind, Outcome.fail.injEq] at h
        subst h
        exact ⟨[], r, rest, values, rfl, rfl, (processLine_malformed_iff fuel values r hr).mp hp⟩
      | timeout => rw [hp] at h; exact Outcome.noConfusion h
      | undefined => rw [hp] at h; exact Outcome.noConfusion h
    · rintro ⟨pre, raw, post, mid, h1, h2, h3⟩
      have hraw : raw.length < npos := hlen raw (by rw [h1]; simp)
      rw [h1, loadLines_append, h2]
      show loadLines fuel mid (raw :: post) = _
      rw [loadLines, (processLine_malformed_iff fuel mid raw hraw).mpr h3]
      rfl

theorem processLine_assign (fuel : Nat) (values values' : ValueMap) (raw line key value : Str)
    (hp : parseLine raw = .assign line key value)
    (h : processLine fuel values raw = .ok values') :
    ∃ v, expandMacros values line fuel value = .ok v ∧ values' = mset values key v := by
  unfold processLine at h
  rw [hp] at h
  dsimp only at h
  cases he : expandMacros values line fuel value with
  | ok v =>
    rw [he] at h
    simp only [Outcome.bind, Outcome.ok.injEq] at h
    exact ⟨v, rfl, h.symm⟩
  | fail e => rw [he] at h; exact Outcome.noConfusion h
  | timeout => rw [he] at h; exact Outcome.noConfusion h
  | undefined => rw [he] at h; exact Outcome.noConfusion h

theorem processLine_other_key (fuel : Nat) (values values' : ValueMap) (raw k : Str)
    (hk : assignedKey raw ≠ some k) (h : processLine fuel values raw = .ok values') :
    mfind values' k = mfind values k := by
  cases hp : parseLine raw with
  | skip =>
    unfold processLine at h
    rw [hp] at h
    simp only [Outcome.ok.injEq] at h
    rw [h]
  | malformed =>
    unfold processLine at h
    rw [hp] at h
    exact Outcome.noConfusion h
  | assign line key value =>
    obtain ⟨v, -, hv⟩ := processLine_assign fuel values values' raw line key value hp h
    have hne : key ≠ k := by
      intro e
      apply hk
      unfold assignedKey
      rw [hp, e]
    rw [hv, mfind_mset_other _ _ _ _ hne]

theorem loadLines_other_key (fuel : Nat) (values final : ValueMap) (lines : List Str) (k : Str)
    (hk : ∀ raw ∈ lines, assignedKey raw ≠ some k)
    (h : loadLines fuel values lines = .ok final) : mfind final k = mfind values k := by
  induction lines generalizing values with
  | nil =>
    simp only [loadLines, Outcome.ok.injEq] at h
    rw [h]
  | cons r rest ih =>
    rw [loadLines] at h
    cases hp : processLine fuel values r with
    | ok v =>
      rw [hp] at h
      rw [ih v (fun raw hr => hk raw (List.mem_cons_of_mem r hr)) h]
      exact processLine_other_key fuel values v r k (hk r (List.mem_cons_self r rest)) hp
    | fail e => rw [hp] at h; exact Outcome.noConfusion h
    | timeout => rw [hp] at h; exact Outcome.noConfusion h
    | undefined => rw [hp] at h; exact Outcome.noConfusion h

theorem loadLines_last_assignment (fuel : Nat) (init final : ValueMap)
    (pre : List Str) (raw : Str) (post : List Str) (line key value : Str)
    (h : loadLines fuel init (pre ++ raw :: post) = .ok final)
    (hp : parseLine raw = .assign line key value)
    (hpost : ∀ r ∈ post, assignedKey r ≠ some key) :
    ∃ (mid : ValueMap) (v : Str), loadLines fuel init pre = .ok mid ∧
      expandMacros mid line fuel value = .ok v ∧ mfind final key = some v := by
  rw [loadLines_append] at h
  cases hpre : loadLines fuel init pre with
  | ok mid =>
    rw [hpre] at h
    change loadLines fuel mid (raw :: post) = .ok final at h
    rw [loadLines] at h
    cases hl : processLine fuel mid raw with
    | ok mid' =>
      rw [hl] at h
      change loadLines fuel mid' post = .ok final at h
      obtain ⟨v, hv, hm⟩ := processLine_assign fuel mid mid' raw line key value hp hl
      refine ⟨mid, v, rfl, hv, ?_⟩
      rw [loadLines_other_key fuel mid' final post key hpost h, hm, mfind_mset_same]
    | fail e => rw [hl] at h; exact Outcome.noConfusion h
    | timeout => rw [hl] at h; exact Outcome.noConfusion h
    | undefined => rw [hl] at h; exact Outcome.noConfusion h
  | fail e => rw [hpre] at h; exact Outcome.noConfusion h
  | timeout => rw [hpre] at h; exact Outcome.noConfusion h
  | undefined => rw [hpre] at h; exact Outcome.noConfusion h

theorem Config_construct_ok (w : World) (fuel : Nat) (filename : Str) (c : Config)
    (h : Config.construct w fuel filename = .ok c) :
    ∃ (init : ValueMap) (lines : List Str), initialValues w filename = .ok init ∧
      w.fileLines filename = some lines ∧ loadLines fuel init lines = .ok c.values ∧
      c.ftLastModify = w.lastWriteTime filename ∧ c.pInterface = none := by
  unfold Config.construct at h
  dsimp only at h
  cases hi : initialValues w filename with
  | error e => rw [hi] at h; exact Outcome.noConfusion h
  | ok init =>
    rw [hi] at h
    dsimp only at h
    cases hf : w.fileLines filename with
    | none => rw [hf] at h; exact Outcome.noConfusion h
    | some lines =>
      rw [hf] at h
      dsimp only at h
      cases hl : loadLines fuel init lines with
      | ok values =>
        rw [hl] at h
        simp only [Outcome.bind, Outcome.ok.injEq] at h
        subst h
        exact ⟨init, lines, rfl, rfl, hl, rfl, rfl⟩
      | fail e => rw [hl] at h; exact Outcome.noConfusion h
      | timeout => rw [hl] at h; exact Outcome.noConfusion h
      | undefined => rw [hl] at h; exact Outcome.noConfusion h

/-! ## Lemmas: the cache -/

theorem Store.newConfig_ok (w : World) (fuel : Nat) (s : Store) (fullpath : Str) (c : Config)
    (h : Config.construct w fuel fullpath = .ok c) :
    Store.newConfig w fuel s fullpath =
      (.ok s.next, { live := mset s.live s.next c, configs := mset s.configs fullpath s.next,
                     next := s.next + 1 }) := by
  unfold Store.newConfig
  rw [h]

theorem Store.newConfig_WF (w : World) (fuel : Nat) (s : Store) (fullpath : Str)
    (hwf : s.WF) : (Store.newConfig w fuel s fullpath).2.WF := by
  unfold Store.newConfig
  cases h : Config.construct w fuel fullpath with
  | ok c =>
    obtain ⟨h1, h2, h3, h4⟩ := hwf
    refine ⟨keys_nodup_mset _ _ _ h1, keys_nodup_mset _ _ _ h2, ?_, ?_⟩
    · intro p hp
      rcases mem_keys_mset _ _ _ _ hp with e | e
      · rw [e]; exact Nat.lt_succ_self _
      · exact Nat.lt_succ_of_lt (h3 p e)
    · intro p hp
      rcases mem_vals_mset _ _ _ _ hp with e | e
      · rw [e]; exact Nat.lt_succ_self _
      · exact Nat.lt_succ_of_lt (h4 p e)
  | fail e => exact hwf
  | timeout => exact hwf
  | undefined => exact hwf

theorem Store.WF_erase (s : Store) (p : Nat) (hwf : s.WF) :
    Store.WF { s with live := merase s.live p } := by
  obtain ⟨h1, h2, h3, h4⟩ := hwf
  exact ⟨h1, keys_nodup_merase _ _ h2, fun q hq => h3 q (keys_merase_sub _ _ _ hq), h4⟩

theorem CompareFileTime_eq (a b : Nat) : CompareFileTime a b = -1 ↔ a < b := by
  unfold CompareFileTime
  split
  · simp [*]
  · split <;> simp [*]

theorem GetConfig_miss_fail (w : World) (fuel : Nat) (s : Store) (filename : Str)
    (e : ConfigError) (hp : mfind s.configs (w.fullPath filename) = none)
    (hc : Config.construct w fuel (w.fullPath filename) = .fail e) :
    GetConfig w fuel s filename = (.fail e, s) := by
  unfold GetConfig
  dsimp only
  rw [hp]
  dsimp only
  unfold Store.newConfig
  rw [hc]

theorem GetConfig_stale_fail (w : World) (fuel : Nat) (s : Store) (filename : Str)
    (p : Nat) (c : Config) (e : ConfigError)
    (hp : mfind s.configs (w.fullPath filename) = some p) (hc : mfind s.live p = some c)
    (hlt : c.ftLastModify < w.lastWriteTime (w.fullPath filename))
    (he : Config.construct w fuel (w.fullPath filename) = .fail e) :
    GetConfig w fuel s filename = (.fail e, { s with live := merase s.live p }) := by
  unfold GetConfig
  dsimp only
  rw [hp]
  dsimp only
  rw [hc]
  dsimp only
  rw [if_pos (by rw [CompareFileTime_eq]; exact hlt)]
  unfold Store.newConfig
  rw [he]

/-! ## Lemmas: the child environment -/

theorem includeLoop_find (values : ValueMap) (items : List Str) (acc : List (Str × Str))
    (name : Str) :
    mfind (includeLoop values items acc) name =
      if name ∈ items.map strupper then
        (match mfind values ("Environment:".toList ++ name) with
          | some v => some v
          | none => mfind acc name)
      else mfind acc name := by
  induction items generalizing acc with
  | nil => simp [includeLoop]
  | cons item rest ih =>
    rw [includeLoop, ih]
    unfold TryGetValue
    by_cases hn : strupper item = name
    · subst hn
      cases hv : mfind values ("Environment:".toList ++ strupper item) with
      | none => simp
      | some v => simp [mfind_mset_same]
    · have hn' : ¬ name = strupper item := fun e => hn e.symm
      cases hv : mfind values ("Environment:".toList ++ strupper item) with
      | none => simp [hn']
      | some v => simp [hn', mfind_mset_other _ _ _ _ hn]

theorem includeLoop_keys_nodup (values : ValueMap) (items : List Str) (acc : List (Str × Str))
    (h : (acc.map Prod.fst).Nodup) :
    ((includeLoop values items acc).map Prod.fst).Nodup := by
  induction items generalizing acc with
  | nil => exact h
  | cons item rest ih =>
    rw [includeLoop]
    apply ih
    split
    · exact keys_nodup_mset _ _ _ h
    · exact h

theorem environment_key_ne (name : Str) :
    "EnvironmentExclude".toList ≠ "Environment:".toList ++ name := by
  intro h
  have := congrArg (List.take 12) h
  rw [List.take_left' (by decide)] at this
  revert this
  decide

theorem includeLoop_congr (values values' : ValueMap) (items : List Str)
    (acc : List (Str × Str))
    (h : ∀ name, mfind values' ("Environment:".toList ++ name)
      = mfind values ("Environment:".toList ++ name)) :
    includeLoop values' items acc = includeLoop values items acc := by
  induction items generalizing acc with
  | nil => rfl
  | cons item rest ih =>
    rw [includeLoop, includeLoop]
    unfold TryGetValue
    rw [h, ih]

theorem buildEnvironment_include (values : ValueMap) (s : Str)
    (h : mfind values "EnvironmentInclude".toList = some s) :
    buildEnvironment values = .ok (includeLoop values (strsplit s ",".toList) []) := by
  unfold buildEnvironment HasValue GetValue
  rw [h]
  rfl

/-! ## Lemmas: the child environment in exclude mode -/

theorem environment_key_split (first : Str) (hlen : first.length < npos) :
    (first.length > "Environment:".toList.length ∧
      substr first 0 "Environment:".toList.length = "Environment:".toList) ↔
    (substr first "Environment:".toList.length npos ≠ [] ∧
      first = "Environment:".toList ++ substr first "Environment:".toList.length npos) := by
  have h12 : "Environment:".toList.length = 12 := by decide
  have hsub : substr first 12 npos = first.drop 12 := by
    unfold substr
    apply List.take_of_length_le
    rw [List.length_drop]; omega
  rw [h12, hsub]
  unfold substr
  rw [List.drop_zero]
  constructor
  · rintro ⟨h1, h2⟩
    refine ⟨?_, ?_⟩
    · intro h
      have := congrArg List.length h
      rw [List.length_drop] at this
      simp at this
      omega
    · rw [← h2, List.take_append_drop]
  · rintro ⟨h1, h2⟩
    refine ⟨?_, ?_⟩
    · by_contra hle
      apply h1
      apply List.drop_eq_nil_of_le
      omega
    · have := congrArg (List.take 12) h2
      rw [List.take_left' (by decide)] at this
      exact this

theorem mfind_cons {κ α : Type} [DecidableEq κ] (k' k : κ) (v : α) (rest : List (κ × α)) :
    mfind ((k', v) :: rest) k = if k' = k then some v else mfind rest k := rfl

theorem excludeLookup_cons_eq (exclude : List Str) (tl : ValueMap) (first second name : Str)
    (hfirst : first = "Environment:".toList ++ name) (hne : name ≠ [])
    (hex : name ∉ exclude) :
    excludeLookup exclude ((first, second) :: tl) name = some second := by
  unfold excludeLookup
  rw [if_pos ⟨hne, hex⟩, mfind_cons, if_pos hfirst]

theorem excludeLookup_cons_ne (exclude : List Str) (tl : ValueMap) (first second name : Str)
    (hfirst : name ≠ [] → first ≠ "Environment:".toList ++ name) :
    excludeLookup exclude ((first, second) :: tl) name = excludeLookup exclude tl name := by
  unfold excludeLookup
  by_cases hc : name ≠ [] ∧ name ∉ exclude
  · rw [if_pos hc, if_pos hc, mfind_cons, if_neg (hfirst hc.1)]
  · rw [if_neg hc, if_neg hc]

theorem excludeLookup_excluded (exclude : List Str) (values : ValueMap) (name : Str)
    (hex : name ∈ exclude) : excludeLookup exclude values name = none := by
  unfold excludeLookup
  rw [if_neg (fun h => h.2 hex)]

theorem excludeLookup_of_none (exclude : List Str) (values : ValueMap) (name : Str)
    (h : mfind values ("Environment:".toList ++ name) = none) :
    excludeLookup exclude values name = none := by
  unfold excludeLookup
  split
  · exact h
  · rfl

theorem excludeLoop_find (exclude : List Str) (values : ValueMap) (acc : List (Str × Str))
    (name : Str) (hnd : (values.map Prod.fst).Nodup)
    (hlen : ∀ k ∈ values.map Prod.fst, k.length < npos) :
    mfind (excludeLoop exclude values acc) name =
      match excludeLookup exclude values name with
      | some v => some v
      | none => mfind acc name := by
  induction values generalizing acc with
  | nil =>
    have : excludeLookup exclude [] name = none := excludeLookup_of_none _ _ _ rfl
    rw [this]
    rfl
  | cons hd tl ih =>
    obtain ⟨first, second⟩ := hd
    rw [List.map_cons, List.nodup_cons] at hnd
    have hfl : first.length < npos := hlen first (List.mem_cons_self _ _)
    have htl : ∀ k ∈ tl.map Prod.fst, k.length < npos :=
      fun k hk => hlen k (List.mem_cons_of_mem _ hk)
    have hsplit := environment_key_split first hfl
    rw [excludeLoop]
    dsimp only
    by_cases hm : first.length > "Environment:".toList.length ∧
        substr first 0 "Environment:".toList.length = "Environment:".toList
    · rw [if_pos hm, ih _ hnd.2 htl]
      obtain ⟨hne, hfirst⟩ := hsplit.mp hm
      generalize substr first "Environment:".toList.length npos = key at hne hfirst
      by_cases hk : key = name
      · subst hk
        have hnone : mfind tl ("Environment:".toList ++ key) = none := by
          rw [mfind_eq_none_iff, ← hfirst]; exact hnd.1
        rw [excludeLookup_of_none exclude tl key hnone]
        by_cases hex : key ∈ exclude
        · rw [if_pos hex, excludeLookup_excluded _ _ _ hex]
        · rw [if_neg hex, excludeLookup_cons_eq _ _ _ _ _ hfirst hne hex]
          exact mfind_mset_same _ _ _
      · have hk' : first ≠ "Environment:".toList ++ name := by
          rw [hfirst]; exact key_ne _ _ _ hk
        rw [excludeLookup_cons_ne _ _ _ _ _ (fun _ => hk')]
        have hacc : mfind (if key ∈ exclude then acc else mset acc key second) name
            = mfind acc name := by
          split
          · rfl
          · exact mfind_mset_other _ _ _ _ hk
        rw [hacc]
    · rw [if_neg hm, ih _ hnd.2 htl]
      have hk' : name ≠ [] → first ≠ "Environment:".toList ++ name := by
        intro hne hfirst
        apply hm
        apply hsplit.mpr
        have h12 : "Environment:".toList.length = 12 := by decide
        have hs : substr first "Environment:".toList.length npos = name := by
          rw [hfirst, h12]
          unfold substr
          rw [List.drop_left' (by decide)]
          apply List.take_of_length_le
          have := congrArg List.length hfirst
          rw [List.length_append, h12] at this
          omega
        rw [hs]
        exact ⟨hne, hfirst⟩
      rw [excludeLookup_cons_ne _ _ _ _ _ hk']

theorem excludeLoop_keys_nodup (exclude : List Str) (values : ValueMap)
    (acc : List (Str × Str)) (h : (acc.map Prod.fst).Nodup) :
    ((excludeLoop exclude values acc).map Prod.fst).Nodup := by
  induction values generalizing acc with
  | nil => exact h
  | cons hd tl ih =>
    obtain ⟨first, second⟩ := hd
    rw [excludeLoop]
    dsimp only
    split
    · apply ih
      split
      · exact h
      · exact keys_nodup_mset _ _ _ h
    · exact ih _ h

theorem buildEnvironment_exclude (values : ValueMap)
    (h : HasValue values "EnvironmentInclude".toList = false) :
    buildEnvironment values = .ok (excludeLoop (excludedNames values) values []) := by
  unfold buildEnvironment
  rw [h]
  unfold excludedNames HasValue GetValue excludeSet
  cases mfind values "EnvironmentExclude".toList <;> rfl

/-! ## Lemmas: the environment block -/

theorem environmentBlock_eq (env : List (Str × Str)) :
    environmentBlock env = (env.map envEntry).flatten ++ [NUL] := by
  induction env with
  | nil => rfl
  | cons hd tl ih =>
    obtain ⟨first, second⟩ := hd
    rw [environmentBlock, ih, List.map_cons, List.flatten_cons]
    simp [envEntry]

theorem environmentBlock_length (env : List (Str × Str)) :
    (environmentBlock env).length = envChars env + 1 := by
  induction env with
  | nil => rfl
  | cons hd tl ih =>
    obtain ⟨first, second⟩ := hd
    rw [environmentBlock, envChars]
    simp only [List.length_append, List.length_cons, List.length_nil, ih]
    omega

theorem environmentBlock_double_nul (env : List (Str × Str)) (h : env ≠ []) :
    ∃ body : List Char, environmentBlock env = body ++ [NUL, NUL] := by
  induction env with
  | nil => exact absurd rfl h
  | cons hd tl ih =>
    obtain ⟨first, second⟩ := hd
    cases tl with
    | nil => exact ⟨first ++ ['='] ++ second, by simp [environmentBlock]⟩
    | cons hd' tl' =>
      obtain ⟨body, hb⟩ := ih (List.cons_ne_nil _ _)
      refine ⟨first ++ ['='] ++ second ++ [NUL] ++ body, ?_⟩
      rw [environmentBlock, hb]
      simp

/-! ## Lemmas: the polling loop -/

theorem pollLoop_succ_irrel (rw : RpcWorld) (n k hr hr' : Nat) (p p' : Option Nat) :
    pollLoop rw (n + 1) k hr p = pollLoop rw (n + 1) k hr' p' := rfl

theorem pollLoop_step (rw : RpcWorld) (n k hr : Nat) (p : Option Nat)
    (h1 : (rw.coCreate (k + 1)).1 = REGDB_E_CLASSNOTREG)
    (h2 : rw.exitCode k = some STILL_ACTIVE) :
    pollLoop rw (n + 1) k hr p =
      { pollLoop rw n (k + 1) (rw.coCreate (k + 1)).1 (rw.coCreate (k + 1)).2 with
        trace := .activate :: .exitCheck :: .sleep ::
          (pollLoop rw n (k + 1) (rw.coCreate (k + 1)).1 (rw.coCreate (k + 1)).2).trace } := by
  rw [pollLoop]
  dsimp only
  rw [if_neg (by rw [h1]; exact fun h => h rfl), h2]
  dsimp only
  rw [if_neg (fun h => h rfl)]

theorem pollLoop_break (rw : RpcWorld) (n k hr : Nat) (p : Option Nat)
    (h1 : (rw.coCreate (k + 1)).1 ≠ REGDB_E_CLASSNOTREG) :
    pollLoop rw (n + 1) k hr p =
      { error := none, hr := (rw.coCreate (k + 1)).1, pInterface := (rw.coCreate (k + 1)).2,
        trace := [.activate] } := by
  rw [pollLoop]
  dsimp only
  rw [if_pos h1]

theorem pollLoop_exited (rw : RpcWorld) (n k hr code : Nat) (p : Option Nat)
    (h1 : (rw.coCreate (k + 1)).1 = REGDB_E_CLASSNOTREG)
    (h2 : rw.exitCode k = some code) (h3 : code ≠ STILL_ACTIVE) :
    pollLoop rw (n + 1) k hr p =
      { error := some .processExited, hr := REGDB_E_CLASSNOTREG,
        pInterface := (rw.coCreate (k + 1)).2, trace := [.activate, .exitCheck] } := by
  rw [pollLoop]
  dsimp only
  rw [if_neg (by rw [h1]; exact fun h => h rfl), h2]
  dsimp only
  rw [if_pos h3, h1]

theorem pollLoop_exit_failed (rw : RpcWorld) (n k hr : Nat) (p : Option Nat)
    (h1 : (rw.coCreate (k + 1)).1 = REGDB_E_CLASSNOTREG) (h2 : rw.exitCode k = none) :
    pollLoop rw (n + 1) k hr p =
      { error := some .getExitCodeFailed, hr := REGDB_E_CLASSNOTREG,
        pInterface := (rw.coCreate (k + 1)).2, trace := [.activate, .exitCheck] } := by
  rw [pollLoop]
  dsimp only
  rw [if_neg (by rw [h1]; exact fun h => h rfl), h2, h1]

theorem pollLoop_waiting (rw : RpcWorld) (m n k hr : Nat) (p : Option Nat)
    (hwait : ∀ j < m, (rw.coCreate (k + j + 1)).1 = REGDB_E_CLASSNOTREG ∧
      rw.exitCode (k + j) = some STILL_ACTIVE) :
    pollLoop rw (n + 1 + m) k hr p =
      { pollLoop rw (n + 1) (k + m) hr p with
        trace := pollPrefix m ++ (pollLoop rw (n + 1) (k + m) hr p).trace } := by
  induction m generalizing k hr p with
  | zero => rfl
  | succ m ih =>
    have h0 := hwait 0 (Nat.succ_pos m)
    rw [Nat.add_zero] at h0
    have hw' : ∀ j < m, (rw.coCreate (k + 1 + j + 1)).1 = REGDB_E_CLASSNOTREG ∧
        rw.exitCode (k + 1 + j) = some STILL_ACTIVE := by
      intro j hj
      have := hwait (j + 1) (Nat.succ_lt_succ hj)
      have e : k + (j + 1) = k + 1 + j := by omega
      rw [e] at this
      exact this
    show pollLoop rw (n + 1 + m + 1) k hr p = _
    rw [pollLoop_step rw (n + 1 + m) k hr p h0.1 h0.2, ih (k + 1) _ _ hw']
    have e : k + 1 + m = k + (m + 1) := by omega
    rw [e, pollLoop_succ_irrel rw n (k + (m + 1)) _ hr _ p]
    rfl

theorem pollLoop_exhausted (rw : RpcWorld) (m k hr : Nat) (p : Option Nat)
    (hwait : ∀ j < m, (rw.coCreate (k + j + 1)).1 = REGDB_E_CLASSNOTREG ∧
      rw.exitCode (k + j) = some STILL_ACTIVE) :
    pollLoop rw (m + 1) k hr p =
      { pollLoop rw 1 (k + m) hr p with
        trace := pollPrefix m ++ (pollLoop rw 1 (k + m) hr p).trace } := by
  have := pollLoop_waiting rw m 0 k hr p hwait
  rw [Nat.zero_add, Nat.add_comm] at this
  exact this

theorem pollLoop_activations_le (rw : RpcWorld) (n k hr : Nat) (p : Option Nat) :
    (pollLoop rw n k hr p).trace.countP Event.isActivate ≤ n := by
  induction n generalizing k hr p with
  | zero => simp [pollLoop]
  | succ n ih =>
    rw [pollLoop]
    dsimp only
    split
    · simp [Event.isActivate]
    · split
      · simp [Event.isActivate]
      · split
        · simp [Event.isActivate]
        · have := ih (k + 1) (rw.coCreate (k + 1)).1 (rw.coCreate (k + 1)).2
          simp only [List.countP_cons, Event.isActivate]
          simpa using this

theorem pollLoop_no_spawn (rw : RpcWorld) (n k hr : Nat) (p : Option Nat) :
    (pollLoop rw n k hr p).trace.countP Event.isSpawn = 0 := by
  induction n generalizing k hr p with
  | zero => simp [pollLoop]
  | succ n ih =>
    rw [pollLoop]
    dsimp only
    split
    · simp [Event.isSpawn]
    · split
      · simp [Event.isSpawn]
      · split
        · simp [Event.isSpawn]
        · have := ih (k + 1) (rw.coCreate (k + 1)).1 (rw.coCreate (k + 1)).2
          simp only [List.countP_cons, Event.isSpawn]
          simpa using this

theorem pollPrefix_activations (m : Nat) : (pollPrefix m).countP Event.isActivate = m := by
  induction m with
  | zero => rfl
  | succ m ih => simp [pollPrefix, Event.isActivate, ih]

theorem pollPrefix_no_spawn (m : Nat) : (pollPrefix m).countP Event.isSpawn = 0 := by
  induction m with
  | zero => rfl
  | succ m ih => simp [pollPrefix, Event.isSpawn, ih]

theorem pollPrefix_succ_append (m : Nat) :
    pollPrefix (m + 1) = pollPrefix m ++ [.activate, .exitCheck, .sleep] := by
  induction m with
  | zero => rfl
  | succ m ih =>
    show Event.activate :: Event.exitCheck :: Event.sleep :: pollPrefix (m + 1) =
      (Event.activate :: Event.exitCheck :: Event.sleep :: pollPrefix m) ++
        [.activate, .exitCheck, .sleep]
    rw [ih]
    rfl

theorem pollLoop_trace_of_notreg (rw : RpcWorld) (n k hr : Nat) (p : Option Nat)
    (he : (pollLoop rw n k hr p).error = none)
    (hh : (pollLoop rw n k hr p).hr = REGDB_E_CLASSNOTREG) :
    (pollLoop rw n k hr p).trace = pollPrefix n := by
  induction n generalizing k hr p with
  | zero => rfl
  | succ n ih =>
    by_cases h1 : (rw.coCreate (k + 1)).1 = REGDB_E_CLASSNOTREG
    · cases hc : rw.exitCode k with
      | none =>
        rw [pollLoop_exit_failed rw n k hr p h1 hc] at he
        exact Option.noConfusion he
      | some code =>
        by_cases hact : code = STILL_ACTIVE
        · subst hact
          rw [pollLoop_step rw n k hr p h1 hc] at he hh ⊢
          show Event.activate :: Event.exitCheck :: Event.sleep :: _ = _
          rw [ih (k + 1) _ _ he hh]
          rfl
        · rw [pollLoop_exited rw n k hr code p h1 hc hact] at he
          exact Option.noConfusion he
    · rw [pollLoop_break rw n k hr p h1] at hh
      exact absurd hh h1

theorem pollLoop_error (rw : RpcWorld) (n k hr hr' : Nat) (p : Option Nat) :
    (pollLoop rw n k hr p).error ≠ some (.couldNotActivate hr') := by
  induction n generalizing k hr p with
  | zero => exact fun h => Option.noConfusion h
  | succ n ih =>
    rw [pollLoop]
    dsimp only
    split
    · exact fun h => Option.noConfusion h
    · split
      · exact fun h => ConfigError.noConfusion (Option.some.inj h)
      · split
        · exact fun h => ConfigError.noConfusion (Option.some.inj h)
        · exact ih _ _ _

theorem releaseExisting_counts (pInterface : Option Nat) :
    (releaseExisting pInterface).countP Event.isActivate = 0 ∧
      (releaseExisting pInterface).countP Event.isSpawn = 0 := by
  cases pInterface <;> simp [releaseExisting, Event.isActivate, Event.isSpawn]

/-! ## Lemmas: `ActivateRPCServer` -/

theorem GetValue_of_mfind (values : ValueMap) (key v : Str) (h : mfind values key = some v) :
    GetValue values key = .ok v := by
  unfold GetValue
  rw [h]

theorem GetValue_error (values : ValueMap) (key : Str) (e : ConfigError)
    (h : GetValue values key = .error e) : e = .keyNotFound key := by
  unfold GetValue at h
  split at h
  · simp only [Except.error.injEq] at h
    exact h.symm
  · exact Except.noConfusion h

theorem buildEnvironment_error (values : ValueMap) (e : ConfigError)
    (h : buildEnvironment values = .error e) : ∃ k, e = .keyNotFound k := by
  unfold buildEnvironment at h
  have hg : ∀ key e', GetValue values key = .error e' → ∃ k, e' = .keyNotFound k := by
    intro key e' hk
    unfold GetValue at hk
    split at hk
    · simp only [Except.error.injEq] at hk
      exact ⟨_, hk.symm⟩
    · exact Except.noConfusion hk
  split at h
  · split at h
    · exact Except.noConfusion h
    · rename_i e' he'
      simp only [Except.error.injEq] at h
      subst h
      exact hg _ _ he'
  · dsimp only at h
    split at h
    · exact Except.noConfusion h
    · rename_i e' he'
      simp only [Except.error.injEq] at h
      subst h
      split at he'
      · split at he'
        · exact Except.noConfusion he'
        · rename_i e'' he''
          simp only [Except.error.injEq] at he'
          subst he'
          exact hg _ _ he''
      · exact Except.noConfusion he'

theorem Activate_other (rw : RpcWorld) (values : ValueMap) (pInterface : Option Nat) (s : Str)
    (hclsid : mfind values "CLSID".toList = some s) (hguid : rw.parseGUID s = none)
    (h0 : (rw.coCreate 0).1 ≠ REGDB_E_CLASSNOTREG) :
    ActivateRPCServer rw values pInterface =
      finishActivation (rw.coCreate 0).1 (rw.coCreate 0).2
        (releaseExisting pInterface ++ [.activate]) := by
  unfold ActivateRPCServer
  dsimp only
  rw [GetValue_of_mfind _ _ _ hclsid]
  dsimp only
  rw [hguid]
  dsimp only
  rw [if_neg h0]

theorem Activate_polling (rw : RpcWorld) (values : ValueMap) (pInterface : Option Nat)
    (s : Str) (evs : List Event)
    (hclsid : mfind values "CLSID".toList = some s) (hguid : rw.parseGUID s = none)
    (h0 : (rw.coCreate 0).1 = REGDB_E_CLASSNOTREG)
    (hspawn : spawnWorker rw values = (none, evs)) :
    ActivateRPCServer rw values pInterface =
      match (pollLoop rw 600 0 (rw.coCreate 0).1 (rw.coCreate 0).2).error with
      | some e =>
        { error := some e, hr := (pollLoop rw 600 0 (rw.coCreate 0).1 (rw.coCreate 0).2).hr,
          pInterface := (pollLoop rw 600 0 (rw.coCreate 0).1 (rw.coCreate 0).2).pInterface,
          trace := releaseExisting pInterface ++ [.activate] ++ evs ++
            (pollLoop rw 600 0 (rw.coCreate 0).1 (rw.coCreate 0).2).trace }
      | none =>
        finishActivation (pollLoop rw 600 0 (rw.coCreate 0).1 (rw.coCreate 0).2).hr
          (pollLoop rw 600 0 (rw.coCreate 0).1 (rw.coCreate 0).2).pInterface
          (releaseExisting pInterface ++ [.activate] ++ evs ++
            (pollLoop rw 600 0 (rw.coCreate 0).1 (rw.coCreate 0).2).trace) := by
  unfold ActivateRPCServer
  dsimp only
  rw [GetValue_of_mfind _ _ _ hclsid]
  dsimp only
  rw [hguid]
  dsimp only
  rw [if_pos h0, hspawn]

theorem Activate_no_clsid (rw : RpcWorld) (values : ValueMap) (pInterface : Option Nat)
    (h : mfind values "CLSID".toList = none) :
    (ActivateRPCServer rw values pInterface).error = some (.keyNotFound "CLSID".toList) := by
  unfold ActivateRPCServer GetValue
  dsimp only
  rw [h]

theorem Activate_bad_guid (rw : RpcWorld) (values : ValueMap) (pInterface : Option Nat)
    (s what : Str) (hclsid : mfind values "CLSID".toList = some s)
    (hguid : rw.parseGUID s = some what) :
    (ActivateRPCServer rw values pInterface).error = some (.external what) := by
  unfold ActivateRPCServer
  dsimp only
  rw [GetValue_of_mfind _ _ _ hclsid]
  dsimp only
  rw [hguid]

theorem Activate_spawn_failed (rw : RpcWorld) (values : ValueMap) (pInterface : Option Nat)
    (s : Str) (e : ConfigError) (evs : List Event)
    (hclsid : mfind values "CLSID".toList = some s) (hguid : rw.parseGUID s = none)
    (h0 : (rw.coCreate 0).1 = REGDB_E_CLASSNOTREG)
    (hspawn : spawnWorker rw values = (some e, evs)) :
    ActivateRPCServer rw values pInterface =
      { error := some e, hr := (rw.coCreate 0).1, pInterface := (rw.coCreate 0).2,
        trace := releaseExisting pInterface ++ [.activate] ++ evs } := by
  unfold ActivateRPCServer
  dsimp only
  rw [GetValue_of_mfind _ _ _ hclsid]
  dsimp only
  rw [hguid]
  dsimp only
  rw [if_pos h0, hspawn]

theorem openRedirect_counts (rw : RpcWorld) (values : ValueMap) :
    (openRedirect rw values).2.countP Event.isActivate = 0 ∧
    (openRedirect rw values).2.countP Event.isSpawn = 0 := by
  unfold openRedirect
  split
  · split
    · simp
    · split <;> simp [Event.isActivate, Event.isSpawn]
  · simp

theorem openRedirect_error (rw : RpcWorld) (values : ValueMap) (hr : Nat) :
    (openRedirect rw values).1 ≠ some (.couldNotActivate hr) := by
  unfold openRedirect
  split
  · split
    · rename_i e he
      rw [GetValue_error _ _ _ he]
      exact fun h => ConfigError.noConfusion (Option.some.inj h)
    · split
      · exact fun h => Option.noConfusion h
      · exact fun h => ConfigError.noConfusion (Option.some.inj h)
  · exact fun h => Option.noConfusion h

theorem spawnWorker_counts (rw : RpcWorld) (values : ValueMap) :
    (spawnWorker rw values).2.countP Event.isActivate = 0 ∧
    (spawnWorker rw values).2.countP Event.isSpawn ≤ 1 ∧
    ((spawnWorker rw values).1 = none → (spawnWorker rw values).2.countP Event.isSpawn = 1) := by
  have hr := openRedirect_counts rw values
  unfold spawnWorker
  split
  · simp
  · split
    · simp
    · split
      · simp
      · split
        · simp
        · dsimp only
          split
          · simp [hr.1, hr.2]
          · split <;> simp [List.countP_append, hr.1, hr.2, Event.isActivate, Event.isSpawn]

theorem spawnWorker_error (rw : RpcWorld) (values : ValueMap) (hr : Nat) :
    (spawnWorker rw values).1 ≠ some (.couldNotActivate hr) := by
  unfold spawnWorker
  split
  · rename_i e he
    rw [GetValue_error _ _ _ he]
    exact fun h => ConfigError.noConfusion (Option.some.inj h)
  · split
    · rename_i e he
      rw [GetValue_error _ _ _ he]
      exact fun h => ConfigError.noConfusion (Option.some.inj h)
    · split
      · exact fun h => ConfigError.noConfusion (Option.some.inj h)
      · split
        · rename_i e he
          obtain ⟨k, hk⟩ := buildEnvironment_error _ _ he
          rw [hk]
          exact fun h => ConfigError.noConfusion (Option.some.inj h)
        · dsimp only
          split
          · rename_i e he
            intro h
            apply openRedirect_error rw values hr
            rw [he]
            exact h
          · split
            · exact fun h => Option.noConfusion h
            · exact fun h => ConfigError.noConfusion (Option.some.inj h)

theorem Activate_spawn_only_if (rw : RpcWorld) (values : ValueMap) (pInterface : Option Nat)
    (h : (ActivateRPCServer rw values pInterface).trace.countP Event.isSpawn ≠ 0) :
    (rw.coCreate 0).1 = REGDB_E_CLASSNOTREG := by
  by_contra h0
  apply h
  have hrel := (releaseExisting_counts pInterface).2
  unfold ActivateRPCServer
  dsimp only
  split
  · exact hrel
  · split
    · exact hrel
    · rw [if_neg h0]
      unfold finishActivation
      split <;> simp [List.countP_append, hrel, Event.isSpawn]

theorem Activate_activations_le (rw : RpcWorld) (values : ValueMap) (pInterface : Option Nat) :
    (ActivateRPCServer rw values pInterface).trace.countP Event.isActivate ≤ 601 := by
  have hrel := (releaseExisting_counts pInterface).1
  have hsp := (spawnWorker_counts rw values).1
  have hpoll := pollLoop_activations_le rw 600 0 (rw.coCreate 0).1 (rw.coCreate 0).2
  have h1 : List.countP Event.isActivate [Event.activate] = 1 := rfl
  unfold ActivateRPCServer
  dsimp only
  split
  · rw [hrel]; omega
  · split
    · rw [hrel]; omega
    · split
      · split
        · simp only [List.countP_append, hrel, hsp, h1]
          omega
        · split
          · simp only [List.countP_append, hrel, hsp, h1]
            omega
          · unfold finishActivation
            split <;>
            · simp only [List.countP_append, hrel, hsp, h1]
              omega
      · unfold finishActivation
        split <;>
        · simp only [List.countP_append, hrel, h1]
          omega

theorem Activate_timed_out_only (rw : RpcWorld) (values : ValueMap) (pInterface : Option Nat)
    (h : (ActivateRPCServer rw values pInterface).error
      = some (.couldNotActivate REGDB_E_CLASSNOTREG)) :
    ∃ evs : List Event, (ActivateRPCServer rw values pInterface).trace =
      releaseExisting pInterface ++ [.activate] ++ evs ++ pollPrefix 600 := by
  cases hcl : mfind values "CLSID".toList with
  | none =>
    rw [Activate_no_clsid rw values pInterface hcl] at h
    exact ConfigError.noConfusion (Option.some.inj h)
  | some s =>
    cases hg : rw.parseGUID s with
    | some what =>
      rw [Activate_bad_guid rw values pInterface s what hcl hg] at h
      exact ConfigError.noConfusion (Option.some.inj h)
    | none =>
      by_cases h0 : (rw.coCreate 0).1 = REGDB_E_CLASSNOTREG
      · cases hsp : spawnWorker rw values with
        | mk oe evs =>
          cases oe with
          | some e =>
            rw [Activate_spawn_failed rw values pInterface s e evs hcl hg h0 hsp] at h
            exfalso
            apply spawnWorker_error rw values REGDB_E_CLASSNOTREG
            rw [hsp]
            exact h
          | none =>
            rw [Activate_polling rw values pInterface s evs hcl hg h0 hsp] at h ⊢
            cases hpe : (pollLoop rw 600 0 (rw.coCreate 0).1 (rw.coCreate 0).2).error with
            | some e =>
              rw [hpe] at h
              exfalso
              apply pollLoop_error rw 600 0 (rw.coCreate 0).1 REGDB_E_CLASSNOTREG
                (rw.coCreate 0).2
              rw [hpe]
              exact h
            | none =>
              rw [hpe] at h
              dsimp only at h ⊢
              unfold finishActivation at h ⊢
              split at h
              · rename_i hf
                rw [if_pos hf]
                simp only [Option.some.injEq, ConfigError.couldNotActivate.injEq] at h
                exact ⟨evs, by
                  show _ ++ (pollLoop rw 600 0 (rw.coCreate 0).1 (rw.coCreate 0).2).trace = _
                  rw [pollLoop_trace_of_notreg rw 600 0 _ _ hpe h]⟩
              · exact Option.noConfusion h
      · rw [Activate_other rw values pInterface s hcl hg h0] at h
        unfold finishActivation at h
        split at h
        · simp only [Option.some.injEq, ConfigError.couldNotActivate.injEq] at h
          exact absurd h h0
        · exact Option.noConfusion h

/-! ## Lemmas: values with and without macros -/

theorem find_macro_none (value : Str) (h : ¬ "$(".toList <:+: value) :
    find value "$(".toList 0 = npos := by
  unfold find
  rw [List.drop_zero, sfind_none_of_not_infix _ _ h]

theorem macroStep_done (values : ValueMap) (line value : Str)
    (h : ¬ "$(".toList <:+: value) : macroStep values line value = .done value := by
  unfold macroStep
  dsimp only
  rw [if_pos (find_macro_none value h)]

theorem not_infix_macro_append (a b : Str) (ha : ¬ "$(".toList <:+: a)
    (hb : ¬ "$(".toList <:+: b) (hh : b.head? ≠ some '(') : ¬ "$(".toList <:+: a ++ b := by
  have hs : "$(".toList = ['$', '('] := by decide
  rw [hs] at ha hb ⊢
  induction a with
  | nil => exact hb
  | cons c a' ih =>
    intro h
    rw [List.cons_append, List.infix_cons_iff] at h
    rcases h with h | h
    · rw [List.cons_prefix_cons] at h
      obtain ⟨h1, h2⟩ := h
      cases a' with
      | nil =>
        apply hh
        cases b with
        | nil => simp at h2
        | cons d b' =>
          rw [List.nil_append, List.cons_prefix_cons] at h2
          rw [List.head?_cons, ← h2.1]
      | cons d a'' =>
        rw [List.cons_append, List.cons_prefix_cons] at h2
        apply ha
        refine ⟨[], a'', ?_⟩
        rw [h1, h2.1]
        rfl
    · exact ih (not_infix_of_cons _ c a' ha) h

theorem macroValueOf_required_present (values : ValueMap) (name v : Str)
    (h : mfind values name = some v) (hq : name.head? ≠ some '?') :
    macroValueOf values name = .ok v := by
  unfold macroValueOf GetValue
  rw [if_neg (fun hc => hq hc.2), h]

theorem expandMacros_next (values : ValueMap) (line value value' : Str) (fuel : Nat)
    (h : macroStep values line value = .next value') :
    expandMacros values line (fuel + 1) value = expandMacros values line fuel value' := by
  rw [expandMacros, h]

theorem expandMacros_done (values : ValueMap) (line value value' : Str) (fuel : Nat)
    (h : macroStep values line value = .done value') :
    expandMacros values line (fuel + 1) value = .ok value' := by
  rw [expandMacros, h]

/-! ## C1: `GetConfig` on a cached path -/

/-- C1: for a well-formed store whose cache holds a live `Config` for the normalized path:
when the file's modification time is not strictly later than the cached `ftLastModify`,
`GetConfig` returns the cached pointer and leaves the store unchanged (so a second call
returns the same instance); when it is strictly later, `GetConfig` deletes the old `Config`
and, the file being loaded into a new `Config`, allocates it, stores it under the same key
and returns it, and the cache still has exactly one entry for that path. -/
theorem GetConfig_cached (w : World) (fuel : Nat) (s : Store) (filename : Str)
    (p : Nat) (c : Config) (hwf : s.WF)
    (hp : mfind s.configs (w.fullPath filename) = some p) (hc : mfind s.live p = some c) :
    (¬ c.ftLastModify < w.lastWriteTime (w.fullPath filename) →
      GetConfig w fuel s filename = (.ok p, s) ∧
      GetConfig w fuel (GetConfig w fuel s filename).2 filename = (.ok p, s)) ∧
    (c.ftLastModify < w.lastWriteTime (w.fullPath filename) →
      mfind (GetConfig w fuel s filename).2.live p = none ∧
      ∀ c' : Config, Config.construct w fuel (w.fullPath filename) = .ok c' →
      ∃ s' : Store, GetConfig w fuel s filename = (.ok s.next, s') ∧
        s.next ≠ p ∧ mfind s'.live p = none ∧
        mfind s'.live s.next = some c' ∧
        mfind s'.configs (w.fullPath filename) = some s.next ∧
        s'.configs.map Prod.fst = s.configs.map Prod.fst ∧
        (s'.configs.filter fun e => decide (e.1 = w.fullPath filename)).length = 1 ∧
        s'.WF) := by
  constructor
  · intro hlt
    have h1 : GetConfig w fuel s filename = (.ok p, s) := by
      unfold GetConfig
      dsimp only
      rw [hp]
      dsimp only
      rw [hc]
      dsimp only
      rw [if_neg (by rw [CompareFileTime_eq]; exact hlt)]
    refine ⟨h1, ?_⟩
    rw [h1]
    exact h1
  · intro hlt
    have hne : s.next ≠ p := by
      have := hwf.2.2.1 p (mem_keys_of_mfind _ _ _ hc)
      omega
    have hmem : w.fullPath filename ∈ s.configs.map Prod.fst := mem_keys_of_mfind _ _ _ hp
    have hg : GetConfig w fuel s filename =
        Store.newConfig w fuel { s with live := merase s.live p } (w.fullPath filename) := by
      unfold GetConfig
      dsimp only
      rw [hp]
      dsimp only
      rw [hc]
      dsimp only
      rw [if_pos (by rw [CompareFileTime_eq]; exact hlt)]
    refine ⟨?_, ?_⟩
    · rw [hg]
      unfold Store.newConfig
      cases Config.construct w fuel (w.fullPath filename) with
      | ok c₁ =>
        show mfind (mset (merase s.live p) s.next c₁) p = none
        rw [mfind_mset_other _ _ _ _ hne, mfind_merase_same]
      | fail e => exact mfind_merase_same _ _
      | timeout => exact mfind_merase_same _ _
      | undefined => exact mfind_merase_same _ _
    intro c' hc'
    have hwf' := Store.newConfig_WF w fuel _ (w.fullPath filename) (Store.WF_erase s p hwf)
    rw [← hg] at hwf'
    rw [Store.newConfig_ok w fuel _ _ c' hc'] at hg
    rw [hg] at hwf'
    refine ⟨_, hg, hne, ?_, ?_, ?_, ?_, ?_, hwf'⟩
    · show mfind (mset (merase s.live p) s.next c') p = none
      rw [mfind_mset_other _ _ _ _ hne, mfind_merase_same]
    · exact mfind_mset_same _ _ _
    · exact mfind_mset_same _ _ _
    · exact keys_mset_of_mem _ _ _ hmem
    · exact filter_key_length _ _ hwf'.1 (by
        show _ ∈ (mset s.configs (w.fullPath filename) s.next).map Prod.fst
        rw [keys_mset_of_mem _ _ _ hmem]; exact hmem)

/-- C1 at `sampleStore`: with the file unmodified (time `1`) the cached instance `0` is
returned; with the file modified (time `2`) the instance `1` replaces it. -/
theorem GetConfig_cached_witness :
    (GetConfig (sampleWorld 1 ["a=2".toList]) 8 sampleStore samplePath = (.ok 0, sampleStore) ∧
      GetConfig (sampleWorld 1 ["a=2".toList]) 8
        (GetConfig (sampleWorld 1 ["a=2".toList]) 8 sampleStore samplePath).2 samplePath
        = (.ok 0, sampleStore)) ∧
    mfind (GetConfig (sampleWorld 2 ["a=2".toList]) 8 sampleStore samplePath).2.live 0 = none ∧
    ∃ c' : Config, Config.construct (sampleWorld 2 ["a=2".toList]) 8 samplePath = .ok c' ∧
      ∃ s' : Store,
        GetConfig (sampleWorld 2 ["a=2".toList]) 8 sampleStore samplePath = (.ok 1, s') ∧
        1 ≠ 0 ∧ mfind s'.live 0 = none ∧ mfind s'.live 1 = some c' ∧
        mfind s'.configs samplePath = some 1 ∧
        s'.configs.map Prod.fst = sampleStore.configs.map Prod.fst ∧
        (s'.configs.filter fun e => decide (e.1 = samplePath)).length = 1 ∧
        s'.WF :=
  ⟨(GetConfig_cached (sampleWorld 1 ["a=2".toList]) 8 sampleStore samplePath 0 sampleConfig
      (by decide) (by decide) (by decide)).1 (by decide),
    ((GetConfig_cached (sampleWorld 2 ["a=2".toList]) 8 sampleStore samplePath 0 sampleConfig
      (by decide) (by decide) (by decide)).2 (by decide)).1,
    _, rfl,
    ((GetConfig_cached (sampleWorld 2 ["a=2".toList]) 8 sampleStore samplePath 0 sampleConfig
      (by decide) (by decide) (by decide)).2 (by decide)).2 _ rfl⟩

/-! ## C2: a failed load leaves no partial state in the cache -/

/-- C2 fails on the reload path. On a cache miss a failed load leaves the store as it was.
But whenever the cached entry is stale and the constructor throws, `GetConfig` throws after
`delete it->second` and before `configs[fullpath]` is assigned: the cache still maps the
path to the deleted `Config`, and the next `GetConfig` for that path reads through the
dangling pointer. The last two parts run this from the empty cache: a first load at time
`1`, then a reload at time `2` of a file whose only line is `oops`. -/
theorem GetConfig_failed_reload_dangling :
    (∀ (w : World) (fuel : Nat) (s : Store) (filename : Str) (e : ConfigError),
      mfind s.configs (w.fullPath filename) = none →
      Config.construct w fuel (w.fullPath filename) = .fail e →
      GetConfig w fuel s filename = (.fail e, s)) ∧
    (∀ (w : World) (fuel : Nat) (s : Store) (filename : Str) (p : Nat) (c : Config)
        (e : ConfigError),
      mfind s.configs (w.fullPath filename) = some p → mfind s.live p = some c →
      c.ftLastModify < w.lastWriteTime (w.fullPath filename) →
      Config.construct w fuel (w.fullPath filename) = .fail e →
      (GetConfig w fuel s filename).1 = .fail e ∧
      mfind (GetConfig w fuel s filename).2.configs (w.fullPath filename) = some p ∧
      mfind (GetConfig w fuel s filename).2.live p = none ∧
      (∀ (w' : World) (fuel' : Nat), w'.fullPath filename = w.fullPath filename →
        (GetConfig w' fuel' (GetConfig w fuel s filename).2 filename).1 = .undefined)) ∧
    (GetConfig (sampleWorld 1 ["a=1".toList]) 8 Store.empty samplePath).1 = .ok 0 ∧
    GetConfig (sampleWorld 2 ["oops".toList]) 8
      (GetConfig (sampleWorld 1 ["a=1".toList]) 8 Store.empty samplePath).2 samplePath =
      (.fail .malformedLine, { live := [], configs := [(samplePath, 0)], next := 1 }) := by
  refine ⟨GetConfig_miss_fail, ?_, by decide, by decide⟩
  intro w fuel s filename p c e hp hc hlt he
  rw [GetConfig_stale_fail w fuel s filename p c e hp hc hlt he]
  refine ⟨rfl, hp, mfind_merase_same _ _, ?_⟩
  intro w' fuel' hw
  unfold GetConfig
  dsimp only
  rw [hw, hp]
  dsimp only
  rw [mfind_merase_same]

/-! ## C3: macros whose name is absent -/

/-- C3: let `name` (without `)`) be absent from the values known so far, in a value whose
leftmost macro is the one under consideration. The optional macro `$(?name)` is replaced by
the empty string and the loop goes on with `pre ++ post`, so the line is processed as if its
value were `pre ++ post`; the required macro `$(name)` (`name` not starting with `?`) makes
the loop, the line and the whole load fail with the missing-key error for `name`. -/
theorem macro_of_absent_name (values : ValueMap) (pre name post : Str) (fuel : Nat)
    (hpre : ¬ "$(".toList <:+: pre) (hname : ')' ∉ name)
    (hlen : pre.length + name.length + post.length + 4 < npos)
    (habsent : mfind values name = none) :
    (∀ raw line key : Str,
      parseLine raw = .assign line key (pre ++ "$(?".toList ++ name ++ ")".toList ++ post) →
      macroStep values line (pre ++ "$(?".toList ++ name ++ ")".toList ++ post)
        = .next (pre ++ post) ∧
      expandMacros values line (fuel + 1) (pre ++ "$(?".toList ++ name ++ ")".toList ++ post)
        = expandMacros values line fuel (pre ++ post) ∧
      processLine (fuel + 1) values raw =
        (expandMacros values line fuel (pre ++ post)).bind fun v => .ok (mset values key v)) ∧
    (name.head? ≠ some '?' → ∀ (raw line key : Str) (rest : List Str),
      parseLine raw = .assign line key (pre ++ "$(".toList ++ name ++ ")".toList ++ post) →
      macroStep values line (pre ++ "$(".toList ++ name ++ ")".toList ++ post)
        = .fail (.keyNotFound name) ∧
      processLine (fuel + 1) values raw = .fail (.keyNotFound name) ∧
      loadLines (fuel + 1) values (raw :: rest) = .fail (.keyNotFound name)) := by
  constructor
  · intro raw line key hparse
    have hv : pre ++ "$(?".toList ++ name ++ ")".toList ++ post =
        pre ++ "$(".toList ++ ('?' :: name) ++ ")".toList ++ post := by
      have : "$(?".toList = "$(".toList ++ ['?'] := by decide
      rw [this]; simp
    have hstep : macroStep values line (pre ++ "$(?".toList ++ name ++ ")".toList ++ post)
        = .next (pre ++ post) := by
      rw [hv, macroStep_closed values line pre ('?' :: name) post hpre
        (by simp only [List.mem_cons, not_or]; exact ⟨by decide, hname⟩)
        (by
          have : "$(".toList.length = 2 := by decide
          have h2 : ")".toList.length = 1 := by decide
          simp only [List.length_append, List.length_cons, this, h2]; omega),
        macroValueOf_optional_absent values name habsent]
      simp
    have hexp : expandMacros values line (fuel + 1)
        (pre ++ "$(?".toList ++ name ++ ")".toList ++ post)
        = expandMacros values line fuel (pre ++ post) := by
      rw [expandMacros, hstep]
    refine ⟨hstep, hexp, ?_⟩
    unfold processLine
    rw [hparse]
    dsimp only
    rw [hexp]
  · intro hq raw line key rest hparse
    have hstep : macroStep values line (pre ++ "$(".toList ++ name ++ ")".toList ++ post)
        = .fail (.keyNotFound name) := by
      rw [macroStep_closed values line pre name post hpre hname
        (by
          have : "$(".toList.length = 2 := by decide
          have h2 : ")".toList.length = 1 := by decide
          simp only [List.length_append, this, h2]; omega),
        macroValueOf_required_absent values name habsent hq]
    have hproc : processLine (fuel + 1) values raw = .fail (.keyNotFound name) := by
      unfold processLine
      rw [hparse]
      dsimp only
      rw [expandMacros, hstep]
      rfl
    refine ⟨hstep, hproc, ?_⟩
    rw [loadLines, hproc]
    rfl

/-- C3 at the lines `k=a$(?x)b` and `k=a$(x)b` with no value known. -/
theorem macro_of_absent_name_witness :
    (macroStep [] "k=a$(?x)b".toList "a$(?x)b".toList = .next "ab".toList ∧
      expandMacros [] "k=a$(?x)b".toList (8 + 1) "a$(?x)b".toList
        = expandMacros [] "k=a$(?x)b".toList 8 "ab".toList ∧
      processLine (8 + 1) [] "k=a$(?x)b".toList =
        (expandMacros [] "k=a$(?x)b".toList 8 "ab".toList).bind
          fun v => .ok (mset [] "k".toList v)) ∧
    (macroStep [] "k=a$(x)b".toList "a$(x)b".toList = .fail (.keyNotFound "x".toList) ∧
      processLine (8 + 1) [] "k=a$(x)b".toList = .fail (.keyNotFound "x".toList) ∧
      loadLines (8 + 1) [] ["k=a$(x)b".toList, "z=1".toList] = .fail (.keyNotFound "x".toList)) :=
  ⟨(macro_of_absent_name [] "a".toList "x".toList "b".toList 8
      (by decide) (by decide) (by decide) (by decide)).1
      "k=a$(?x)b".toList "k=a$(?x)b".toList "k".toList (by decide),
    (macro_of_absent_name [] "a".toList "x".toList "b".toList 8
      (by decide) (by decide) (by decide) (by decide)).2 (by decide)
      "k=a$(x)b".toList "k=a$(x)b".toList "k".toList ["z=1".toList] (by decide)⟩

/-! ## C4: an unterminated macro -/

/-- C4 fails on the code: the guard of line 99 tests `itMacroStart` a second time instead of
`itMacroEnd`, so the `throw` of line 100 is never reached: neither the macro loop nor a line
ever fails with `malformedMacro`. With `itMacroEnd = npos` the `size_t` arithmetic makes
`k=$(abc` fail with the missing-key error for `abc`, `k=x$(?abc` silently store `x`,
`k=x$(abc` store `x1` when `abc` is `1`, and `k=$(?abc` loop for ever (no fuel suffices). -/
theorem unterminated_macro_not_reported :
    (∀ (values : ValueMap) (line value l : Str) (fuel : Nat),
      expandMacros values line fuel value ≠ .fail (.malformedMacro l)) ∧
    (∀ (fuel : Nat) (values : ValueMap) (raw : Str) (l : Str),
      processLine fuel values raw ≠ .fail (.malformedMacro l)) ∧
    processLine 8 [] "k=$(abc".toList = .fail (.keyNotFound "abc".toList) ∧
    processLine 8 [] "k=x$(?abc".toList = .ok [("k".toList, "x".toList)] ∧
    processLine 8 [("abc".toList, "1".toList)] "k=x$(abc".toList
      = .ok [("abc".toList, "1".toList), ("k".toList, "x1".toList)] ∧
    (∀ fuel : Nat, processLine fuel [] "k=$(?abc".toList = .timeout) := by
  have h1 : ∀ (values : ValueMap) (line value l : Str) (fuel : Nat),
      expandMacros values line fuel value ≠ .fail (.malformedMacro l) := by
    intro values line value l fuel h
    obtain ⟨k, hk⟩ := expandMacros_fail values line fuel value _ h
    exact ConfigError.noConfusion hk
  refine ⟨h1, ?_, by decide, by decide, by decide, ?_⟩
  · intro fuel values raw l h
    unfold processLine at h
    split at h
    · exact Outcome.noConfusion h
    · simp only [Outcome.fail.injEq] at h
      exact ConfigError.noConfusion h
    · rename_i line key value _
      cases he : expandMacros values line fuel value with
      | ok v => rw [he] at h; exact Outcome.noConfusion h
      | fail e =>
        rw [he] at h
        simp only [Outcome.bind, Outcome.fail.injEq] at h
        subst h
        exact h1 _ _ _ _ _ he
      | timeout => rw [he] at h; exact Outcome.noConfusion h
      | undefined => rw [he] at h; exact Outcome.noConfusion h
  · intro fuel
    have hp : parseLine "k=$(?abc".toList = .assign "k=$(?abc".toList "k".toList "$(?abc".toList := by
      decide
    unfold processLine
    rw [hp]
    dsimp only
    rw [expandMacros_fixed [] _ _ (by decide) fuel]
    rfl

/-! ## C5: skipped lines and `MalformedLine` -/

/-- C5: for lines shorter than `npos`: a line that is empty after trimming, or whose first
non-whitespace character is `#`, is skipped and leaves the values unchanged; and the load
fails with `MalformedLine` exactly when the lines before some line load and that line is,
after trimming, non-empty, not starting with `#` and without `=`. -/
theorem skip_and_malformedLine (fuel : Nat) (values : ValueMap) (lines : List Str)
    (hlen : ∀ raw ∈ lines, raw.length < npos) :
    (∀ (raw : Str) (rest : List Str),
      (strtrim raw = [] ∨ raw.find? (fun c => !isSpace c) = some '#') →
      processLine fuel values raw = .ok values ∧
      loadLines fuel values (raw :: rest) = loadLines fuel values rest) ∧
    (loadLines fuel values lines = .fail .malformedLine ↔
      ∃ (pre : List Str) (raw : Str) (post : List Str) (mid : ValueMap),
        lines = pre ++ raw :: post ∧ loadLines fuel values pre = .ok mid ∧
        strtrim raw ≠ [] ∧ (strtrim raw).head? ≠ some '#' ∧ '=' ∉ strtrim raw) := by
  refine ⟨?_, loadLines_malformed_iff fuel values lines hlen⟩
  intro raw rest h
  rw [← head?_strtrim, ← parseLine_skip_iff] at h
  have hp : processLine fuel values raw = .ok values := by
    unfold processLine
    rw [h]
  refine ⟨hp, ?_⟩
  rw [loadLines, hp]
  rfl

/-- C5 at the lines `# c`, blank, `a=1`, `oops`, `b=2` with no value known. -/
theorem skip_and_malformedLine_witness :
    (∀ (raw : Str) (rest : List Str),
      (strtrim raw = [] ∨ raw.find? (fun c => !isSpace c) = some '#') →
      processLine 8 [] raw = .ok [] ∧
      loadLines 8 [] (raw :: rest) = loadLines 8 [] rest) ∧
    (loadLines 8 [] [" # c".toList, "  ".toList, "a=1".toList, "oops".toList, "b=2".toList]
        = .fail .malformedLine ↔
      ∃ (pre : List Str) (raw : Str) (post : List Str) (mid : ValueMap),
        [" # c".toList, "  ".toList, "a=1".toList, "oops".toList, "b=2".toList]
          = pre ++ raw :: post ∧ loadLines 8 [] pre = .ok mid ∧
        strtrim raw ≠ [] ∧ (strtrim raw).head? ≠ some '#' ∧ '=' ∉ strtrim raw) :=
  skip_and_malformedLine 8 []
    [" # c".toList, "  ".toList, "a=1".toList, "oops".toList, "b=2".toList] (by decide)

/-! ## C6: the last assignment wins -/

/-- C6: when the constructor succeeds, with `init` the pre-populated values and `lines` the
file: for every line that assigns `key` and is followed by no other line assigning `key`,
the final value of `key` is the line's value resolved against the values as they are after
the lines before it (so later duplicates and file lines override, and macros see the most
recent earlier assignment); a key that no line assigns keeps its value of `init`. -/
theorem Config_values_last_assignment (w : World) (fuel : Nat) (filename : Str) (c : Config)
    (h : Config.construct w fuel filename = .ok c) :
    ∃ (init : ValueMap) (lines : List Str),
      initialValues w filename = .ok init ∧ w.fileLines filename = some lines ∧
      (∀ (pre : List Str) (raw : Str) (post : List Str) (line key value : Str),
        lines = pre ++ raw :: post → parseLine raw = .assign line key value →
        (∀ r ∈ post, assignedKey r ≠ some key) →
        ∃ (mid : ValueMap) (v : Str), loadLines fuel init pre = .ok mid ∧
          expandMacros mid line fuel value = .ok v ∧ mfind c.values key = some v) ∧
      (∀ key : Str, (∀ r ∈ lines, assignedKey r ≠ some key) →
        mfind c.values key = mfind init key) := by
  obtain ⟨init, lines, h1, h2, h3, -, -⟩ := Config_construct_ok w fuel filename c h
  refine ⟨init, lines, h1, h2, ?_, ?_⟩
  · intro pre raw post line key value hl hp hpost
    rw [hl] at h3
    exact loadLines_last_assignment fuel init c.values pre raw post line key value h3 hp hpost
  · intro key hk
    exact loadLines_other_key fuel init c.values lines key hk h3

/-- C6 at the file `a=1`, `b=$(a)`, `a=2`, `ConfigDir=zzz`. -/
theorem Config_values_last_assignment_witness :
    ∃ c : Config,
      Config.construct
        (sampleWorld 1 ["a=1".toList, "b=$(a)".toList, "a=2".toList, "ConfigDir=zzz".toList])
        8 samplePath = .ok c ∧
      mfind c.values "a".toList = some "2".toList ∧
      mfind c.values "b".toList = some "1".toList ∧
      mfind c.values "ConfigDir".toList = some "zzz".toList ∧
      mfind c.values "ConfigFileName".toList = some "x.cfg".toList ∧
      ∃ (init : ValueMap) (lines : List Str),
        initialValues
          (sampleWorld 1 ["a=1".toList, "b=$(a)".toList, "a=2".toList, "ConfigDir=zzz".toList])
          samplePath = .ok init ∧
        (sampleWorld 1 ["a=1".toList, "b=$(a)".toList, "a=2".toList, "ConfigDir=zzz".toList]).fileLines
          samplePath = some lines ∧
        (∀ (pre : List Str) (raw : Str) (post : List Str) (line key value : Str),
          lines = pre ++ raw :: post → parseLine raw = .assign line key value →
          (∀ r ∈ post, assignedKey r ≠ some key) →
          ∃ (mid : ValueMap) (v : Str), loadLines 8 init pre = .ok mid ∧
            expandMacros mid line 8 value = .ok v ∧ mfind c.values key = some v) ∧
        (∀ key : Str, (∀ r ∈ lines, assignedKey r ≠ some key) →
          mfind c.values key = mfind init key) :=
  ⟨_, rfl, by decide, by decide, by decide, by decide,
    Config_values_last_assignment
      (sampleWorld 1 ["a=1".toList, "b=$(a)".toList, "a=2".toList, "ConfigDir=zzz".toList])
      8 samplePath _ rfl⟩

/-! ## C7: `GetValue(key, default)`, `HasValue`, `TryGetValue` -/

/-- C7: `GetValue(key, default)` returns `default` when `HasValue(key)` is false and the
stored value otherwise, so a result other than `default` occurs only when `HasValue(key)`
is true, and `HasValue(key)` is false exactly when `GetValue` returns whatever default it is
given; `TryGetValue(key)` reports found precisely when `HasValue(key)` is true and then
yields the same value as `GetValue(key, default)`, leaving its output parameter alone
otherwise. -/
theorem GetValue_HasValue_TryGetValue (values : ValueMap) (key dfault out : Str) :
    (HasValue values key = false → GetValueD values key dfault = dfault) ∧
    (HasValue values key = true → mfind values key = some (GetValueD values key dfault)) ∧
    (GetValueD values key dfault ≠ dfault → HasValue values key = true) ∧
    (HasValue values key = false ↔ ∀ d : Str, GetValueD values key d = d) ∧
    (TryGetValue values key out).1 = HasValue values key ∧
    ((TryGetValue values key out).1 = true →
      (TryGetValue values key out).2 = GetValueD values key dfault ∧
      GetValue values key = .ok (TryGetValue values key out).2) ∧
    ((TryGetValue values key out).1 = false → (TryGetValue values key out).2 = out) := by
  have hall : HasValue values key = false ↔ ∀ d : Str, GetValueD values key d = d := by
    unfold HasValue GetValueD
    cases h : mfind values key with
    | none => exact ⟨fun _ _ => rfl, fun _ => rfl⟩
    | some v =>
      refine ⟨fun e => Bool.noConfusion e, fun e => ?_⟩
      have hv : v = 'a' :: v := e ('a' :: v)
      have := congrArg List.length hv
      rw [List.length_cons] at this
      omega
  refine ⟨?_, ?_, ?_, hall, ?_, ?_, ?_⟩ <;>
    (simp only [HasValue, GetValueD, TryGetValue, GetValue]
     cases h : mfind values key <;> simp)

/-! ## C8: `Dir + "\" + FileName == Path` -/

/-- C8: for a path (shorter than `npos`) that contains a backslash and any prefix, after
`SplitPath` the values stored under `<prefix>Dir`, `<prefix>FileName` and `<prefix>Path`
satisfy `Dir + "\" + FileName = Path = path`, and `FileName` contains no backslash: the split
is at the last one. -/
theorem SplitPath_dir_fileName (path : Str) (values : ValueMap) (pfx : Str)
    (hlen : path.length < npos) (hsep : Char.ofNat 92 ∈ path) :
    ∃ dir fileName : Str,
      mfind (SplitPath path values pfx) (pfx ++ "Dir".toList) = some dir ∧
      mfind (SplitPath path values pfx) (pfx ++ "FileName".toList) = some fileName ∧
      mfind (SplitPath path values pfx) (pfx ++ "Path".toList) = some path ∧
      dir ++ "\\".toList ++ fileName = path ∧
      Char.ofNat 92 ∉ fileName := by
  obtain ⟨h1, _, h3, h4⟩ := fileNameOf_of_sep path hlen hsep
  refine ⟨substr path 0 (rfind path "\\".toList), fileNameOf path,
    SplitPath_find_Dir path values pfx h1, SplitPath_find_FileName path values pfx,
    SplitPath_find_Path path values pfx, ?_, h4⟩
  unfold substr
  rw [List.drop_zero]
  exact h3.symm

/-- C8 at the path `C:\dir\a.b.cfg` with the prefix `Config`. -/
theorem SplitPath_dir_fileName_witness :
    ∃ dir fileName : Str,
      mfind (SplitPath "C:\\dir\\a.b.cfg".toList [] "Config".toList) "ConfigDir".toList
        = some dir ∧
      mfind (SplitPath "C:\\dir\\a.b.cfg".toList [] "Config".toList) "ConfigFileName".toList
        = some fileName ∧
      mfind (SplitPath "C:\\dir\\a.b.cfg".toList [] "Config".toList) "ConfigPath".toList
        = some "C:\\dir\\a.b.cfg".toList ∧
      dir ++ "\\".toList ++ fileName = "C:\\dir\\a.b.cfg".toList ∧
      Char.ofNat 92 ∉ fileName :=
  SplitPath_dir_fileName "C:\\dir\\a.b.cfg".toList [] "Config".toList (by decide) (by decide)

/-! ## C9: `FileName` is split at its last dot -/

/-- C9: for every path (shorter than `npos`), with or without a backslash, the `FileName`
stored by `SplitPath` is split at its last dot: when it contains a dot,
`Name + "." + Ext = FileName` and `Ext` contains no dot; when it contains none,
`Name = FileName` and `Ext` is empty. -/
theorem SplitPath_name_ext (path : Str) (values : ValueMap) (pfx : Str)
    (hlen : path.length < npos) :
    ∃ fileName name ext : Str,
      mfind (SplitPath path values pfx) (pfx ++ "FileName".toList) = some fileName ∧
      mfind (SplitPath path values pfx) (pfx ++ "Name".toList) = some name ∧
      mfind (SplitPath path values pfx) (pfx ++ "Ext".toList) = some ext ∧
      ('.' ∈ fileName → name ++ ".".toList ++ ext = fileName ∧ '.' ∉ ext) ∧
      ('.' ∉ fileName → name = fileName ∧ ext = []) := by
  have hs : ".".toList = ['.'] := by decide
  have hfl := fileNameOf_length_le path hlen
  have hsz : npos < sizeMod := npos_lt_sizeMod
  refine ⟨fileNameOf path, _, _, SplitPath_find_FileName path values pfx,
    SplitPath_find_Name path values pfx, SplitPath_find_Ext path values pfx, ?_, ?_⟩
  · intro hdot
    rw [hs]
    obtain ⟨h1, h2, h3⟩ := rfind_single_spec '.' (fileNameOf path) hdot
    have hne : rfind (fileNameOf path) ['.'] ≠ npos := by omega
    rw [if_pos hne, if_pos hne, uadd_eq _ _ (by omega), usub_eq _ _ (by omega) (by omega)]
    have hext : substr (fileNameOf path) (rfind (fileNameOf path) ['.'] + 1)
        (path.length - rfind (fileNameOf path) ['.']) =
        (fileNameOf path).drop (rfind (fileNameOf path) ['.'] + 1) := by
      unfold substr
      apply List.take_of_length_le
      rw [List.length_drop]
      omega
    rw [hext]
    refine ⟨?_, h3⟩
    unfold substr
    rw [List.drop_zero]
    simpa using h2.symm
  · intro hdot
    rw [hs]
    have he : rfind (fileNameOf path) ['.'] = npos :=
      (rfind_single_npos '.' (fileNameOf path) (by omega)).mpr hdot
    simp [he]

/-- C9 at the path `C:\dir\a.b.cfg` with the prefix `Config`. -/
theorem SplitPath_name_ext_witness :
    ∃ fileName name ext : Str,
      mfind (SplitPath "C:\\dir\\a.b.cfg".toList [] "Config".toList) "ConfigFileName".toList
        = some fileName ∧
      mfind (SplitPath "C:\\dir\\a.b.cfg".toList [] "Config".toList) "ConfigName".toList
        = some name ∧
      mfind (SplitPath "C:\\dir\\a.b.cfg".toList [] "Config".toList) "ConfigExt".toList
        = some ext ∧
      ('.' ∈ fileName → name ++ ".".toList ++ ext = fileName ∧ '.' ∉ ext) ∧
      ('.' ∉ fileName → name = fileName ∧ ext = []) :=
  SplitPath_name_ext "C:\\dir\\a.b.cfg".toList [] "Config".toList (by decide)

/-! ## C10: the child environment in include mode -/

/-- C10: when the values have `EnvironmentInclude`, with `s` its value, the environment is
built without error and holds `name ↦ v` exactly when `name` is the uppercased form of an
item of the comma-separated list `s` and `v` is stored under `Environment:<name>`; it has
one entry per name, and neither setting nor removing `EnvironmentExclude` changes it. -/
theorem include_environment (values : ValueMap)
    (h : HasValue values "EnvironmentInclude".toList = true) :
    ∃ (s : Str) (env : List (Str × Str)),
      mfind values "EnvironmentInclude".toList = some s ∧
      buildEnvironment values = .ok env ∧
      (∀ name v : Str, mfind env name = some v ↔
        (name ∈ (strsplit s ",".toList).map strupper ∧
          mfind values ("Environment:".toList ++ name) = some v)) ∧
      (env.map Prod.fst).Nodup ∧
      (∀ x : Str, buildEnvironment (mset values "EnvironmentExclude".toList x) = .ok env) ∧
      buildEnvironment (merase values "EnvironmentExclude".toList) = .ok env := by
  have hne : "EnvironmentExclude".toList ≠ "EnvironmentInclude".toList := by decide
  cases hs : mfind values "EnvironmentInclude".toList with
  | none =>
    unfold HasValue at h
    rw [hs] at h
    exact Bool.noConfusion h
  | some s =>
    refine ⟨s, includeLoop values (strsplit s ",".toList) [], rfl,
      buildEnvironment_include values s hs, ?_, includeLoop_keys_nodup _ _ _ (by simp), ?_, ?_⟩
    · intro name v
      rw [includeLoop_find]
      by_cases hm : name ∈ (strsplit s ",".toList).map strupper
      · rw [if_pos hm]
        cases hv : mfind values ("Environment:".toList ++ name) with
        | none =>
          change (none : Option Str) = some v ↔ _
          exact ⟨fun e => Option.noConfusion e, fun e => e.2⟩
        | some v' => exact ⟨fun e => ⟨hm, e⟩, fun e => e.2⟩
      · rw [if_neg hm]
        change (none : Option Str) = some v ↔ _
        exact ⟨fun e => Option.noConfusion e, fun e => absurd e.1 hm⟩
    · intro x
      rw [buildEnvironment_include _ s (by rw [mfind_mset_other _ _ _ _ hne]; exact hs)]
      rw [includeLoop_congr values _ _ _
        (fun name => mfind_mset_other _ _ _ _ (environment_key_ne name))]
    · rw [buildEnvironment_include _ s (by rw [mfind_merase_other _ _ _ hne]; exact hs)]
      rw [includeLoop_congr values _ _ _
        (fun name => mfind_merase_other _ _ _ (environment_key_ne name))]

/-- C10 at the configuration `EnvironmentInclude=FOO,BAR` loaded in the environment `FOO=1`,
`BAR=2`, `BAZ=3`: the child environment is exactly `FOO=1`, `BAR=2`. -/
theorem include_environment_witness :
    (∃ (s : Str) (env : List (Str × Str)),
      mfind includeExampleValues "EnvironmentInclude".toList = some s ∧
      buildEnvironment includeExampleValues = .ok env ∧
      (∀ name v : Str, mfind env name = some v ↔
        (name ∈ (strsplit s ",".toList).map strupper ∧
          mfind includeExampleValues ("Environment:".toList ++ name) = some v)) ∧
      (env.map Prod.fst).Nodup ∧
      (∀ x : Str,
        buildEnvironment (mset includeExampleValues "EnvironmentExclude".toList x) = .ok env) ∧
      buildEnvironment (merase includeExampleValues "EnvironmentExclude".toList) = .ok env) ∧
    mfind includeExampleValues "Environment:BAZ".toList = some "3".toList ∧
    buildEnvironment includeExampleValues
      = .ok [("FOO".toList, "1".toList), ("BAR".toList, "2".toList)] :=
  ⟨include_environment includeExampleValues (by decide), by decide, rfl⟩

/-! ## C11: the child environment in exclude mode -/

/-- C11, as stated, fails. First, the key `Environment:` itself has the prefix (the
environment block of a Windows process holds strings such as `=C:=C:\xl`, stored under
it) and is excluded by nothing, yet the guard `length() > prefix.length()` of line 262 keeps
it out of the child environment. Second, the name is compared as stored with the
uppercased items: under `EnvironmentExclude=foo` the key `Environment:foo` is kept although
its uppercased name is in the uppercased list. -/
theorem exclude_environment_counterexample :
    (HasValue driveExampleValues "EnvironmentInclude".toList = false ∧
      mfind driveExampleValues ("Environment:".toList ++ []) = some "C:=C:\\xl".toList ∧
      excludedNames driveExampleValues = [] ∧
      buildEnvironment driveExampleValues = .ok [("FOO".toList, "1".toList)] ∧
      ¬ (∃ env : List (Str × Str), buildEnvironment driveExampleValues = .ok env ∧
          mfind env [] = some "C:=C:\\xl".toList)) ∧
    (buildEnvironment
        [("Environment:foo".toList, "1".toList), ("EnvironmentExclude".toList, "foo".toList)]
      = .ok [("foo".toList, "1".toList)]) := by
  refine ⟨⟨by decide, by decide, by decide, rfl, ?_⟩, rfl⟩
  rintro ⟨env, h1, h2⟩
  have h3 : buildEnvironment driveExampleValues = .ok [("FOO".toList, "1".toList)] := rfl
  rw [h3] at h1
  injection h1 with h1
  subst h1
  revert h2
  decide

/-- C11 (amended): for values with unique keys shorter than `npos` and without
`EnvironmentInclude`, the child environment is built without error and holds `name ↦ v`
exactly when `name` is not empty, `v` is stored under `Environment:<name>`, and `name`, as
stored, is not the uppercased form of an item of the comma-separated `EnvironmentExclude`
list (no name is dropped when the list is absent); it has one entry per name. -/
theorem exclude_environment (values : ValueMap)
    (hnd : (values.map Prod.fst).Nodup) (hlen : ∀ k ∈ values.map Prod.fst, k.length < npos)
    (h : HasValue values "EnvironmentInclude".toList = false) :
    ∃ env : List (Str × Str),
      buildEnvironment values = .ok env ∧
      (∀ name v : Str, mfind env name = some v ↔
        (name ≠ [] ∧ mfind values ("Environment:".toList ++ name) = some v ∧
          name ∉ excludedNames values)) ∧
      (env.map Prod.fst).Nodup := by
  refine ⟨_, buildEnvironment_exclude values h, ?_, excludeLoop_keys_nodup _ _ _ (by simp)⟩
  intro name v
  rw [excludeLoop_find _ _ _ _ hnd hlen]
  unfold excludeLookup
  by_cases hc : name ≠ [] ∧ name ∉ excludedNames values
  · rw [if_pos hc]
    cases hv : mfind values ("Environment:".toList ++ name) with
    | none =>
      change (none : Option Str) = some v ↔ _
      exact ⟨fun e => Option.noConfusion e, fun e => Option.noConfusion e.2.1⟩
    | some v' => exact ⟨fun e => ⟨hc.1, e, hc.2⟩, fun e => e.2.1⟩
  · rw [if_neg hc]
    change (none : Option Str) = some v ↔ _
    exact ⟨fun e => Option.noConfusion e, fun e => absurd ⟨e.1, e.2.2⟩ hc⟩

/-- C11 (amended) at the configuration `EnvironmentExclude=BAZ` loaded in the environment
`FOO=1`, `BAR=2`, `BAZ=3`: the child environment is exactly `FOO=1`, `BAR=2`. -/
theorem exclude_environment_witness :
    (∃ env : List (Str × Str),
      buildEnvironment excludeExampleValues = .ok env ∧
      (∀ name v : Str, mfind env name = some v ↔
        (name ≠ [] ∧ mfind excludeExampleValues ("Environment:".toList ++ name) = some v ∧
          name ∉ excludedNames excludeExampleValues)) ∧
      (env.map Prod.fst).Nodup) ∧
    buildEnvironment excludeExampleValues
      = .ok [("FOO".toList, "1".toList), ("BAR".toList, "2".toList)] :=
  ⟨exclude_environment excludeExampleValues (by decide) (by decide) (by decide), rfl⟩

/-! ## C12: the environment block -/

/-- C12 fails for the empty mapping. For every mapping the block is one `name=value`
string and a `0` per entry followed by one `0`, and it fills the `nChars + 1` characters of
the buffer; for a non-empty mapping it therefore ends with two `0`. For the empty mapping
the buffer has one character and the block is a single `0`, not two: this is the block
handed to `CreateProcessA` for a configuration with `EnvironmentInclude=NOPE`. -/
theorem environmentBlock_empty_single_nul :
    (∀ env : List (Str × Str),
      environmentBlock env = (env.map envEntry).flatten ++ [NUL] ∧
      (environmentBlock env).length = envChars env + 1) ∧
    (∀ env : List (Str × Str), env ≠ [] →
      ∃ body : List Char, environmentBlock env = body ++ [NUL, NUL]) ∧
    environmentBlock [] = [NUL] ∧
    ¬ (∃ body : List Char, environmentBlock [] = body ++ [NUL, NUL]) ∧
    (buildEnvironment emptyExampleValues = .ok [] ∧
      spawnWorker (sampleRpc (fun _ => REGDB_E_CLASSNOTREG) (fun _ => STILL_ACTIVE))
        (mset (mset emptyExampleValues "WorkingDir".toList ".".toList)
          "Command".toList "worker.exe".toList)
      = (none, [.createProcess "worker.exe".toList ".".toList [NUL]])) := by
  refine ⟨fun env => ⟨environmentBlock_eq env, environmentBlock_length env⟩,
    environmentBlock_double_nul, rfl, ?_, rfl, by decide⟩
  rintro ⟨body, hb⟩
  have := congrArg List.length hb
  simp [environmentBlock] at this

/-! ## C13: the first activation attempt -/

/-- C13: for values with a `CLSID` that `ParseGUID` accepts: when the first
`CoCreateInstance` succeeds, `ActivateRPCServer` ends normally with the pointer it stored,
having made that one call and no other after the release; when it fails with a code other
than `REGDB_E_CLASSNOTREG`, the exception of line 364 is thrown with that code after that
one call; and `CreateProcessA` is called only when the first attempt gave
`REGDB_E_CLASSNOTREG`. -/
theorem activate_first_attempt (rw : RpcWorld) (values : ValueMap) (pInterface : Option Nat)
    (s : Str) (hclsid : mfind values "CLSID".toList = some s)
    (hguid : rw.parseGUID s = none) :
    (FAILED (rw.coCreate 0).1 = false →
      ActivateRPCServer rw values pInterface =
        { error := none, hr := (rw.coCreate 0).1, pInterface := (rw.coCreate 0).2,
          trace := releaseExisting pInterface ++ [.activate] }) ∧
    (FAILED (rw.coCreate 0).1 = true → (rw.coCreate 0).1 ≠ REGDB_E_CLASSNOTREG →
      ActivateRPCServer rw values pInterface =
        { error := some (.couldNotActivate (rw.coCreate 0).1), hr := (rw.coCreate 0).1,
          pInterface := (rw.coCreate 0).2,
          trace := releaseExisting pInterface ++ [.activate] }) ∧
    ((ActivateRPCServer rw values pInterface).trace.countP Event.isSpawn ≠ 0 →
      (rw.coCreate 0).1 = REGDB_E_CLASSNOTREG) := by
  refine ⟨?_, ?_, Activate_spawn_only_if rw values pInterface⟩
  · intro hf
    have h0 : (rw.coCreate 0).1 ≠ REGDB_E_CLASSNOTREG := by
      intro e
      rw [e] at hf
      revert hf
      decide
    rw [Activate_other rw values pInterface s hclsid hguid h0]
    unfold finishActivation
    rw [hf]
    rfl
  · intro hf h0
    rw [Activate_other rw values pInterface s hclsid hguid h0]
    unfold finishActivation
    rw [hf]
    rfl

/-- C13 at a first attempt that succeeds (`hr = 0`) and at one that fails with `E_FAIL`. -/
theorem activate_first_attempt_witness :
    ActivateRPCServer (sampleRpc (fun _ => 0) (fun _ => STILL_ACTIVE))
        activateExampleValues (some 3) =
      { error := none, hr := 0, pInterface := some 7, trace := [.release 3, .activate] } ∧
    ActivateRPCServer (sampleRpc (fun _ => 0x80004005) (fun _ => STILL_ACTIVE))
        activateExampleValues (some 3) =
      { error := some (.couldNotActivate 0x80004005), hr := 0x80004005, pInterface := none,
        trace := [.release 3, .activate] } :=
  ⟨(activate_first_attempt (sampleRpc (fun _ => 0) (fun _ => STILL_ACTIVE))
      activateExampleValues (some 3) "id".toList (by decide) (by decide)).1 (by decide),
    (activate_first_attempt (sampleRpc (fun _ => 0x80004005) (fun _ => STILL_ACTIVE))
      activateExampleValues (some 3) "id".toList (by decide) (by decide)).2.1
      (by decide) (by decide)⟩

/-! ## C14: the process exits during the polling -/

/-- C14: after a successful spawn, let the iterations before iteration `k < 600` have
found the class not registered and the process still active. If iteration `k` finds the
class not registered and an exit code other than `STILL_ACTIVE`, `ActivateRPCServer` throws
the exception of line 355 there: the trace ends with the activation attempt and the exit
check of iteration `k`, with no later attempt or `Sleep`, also for `k = 599`. -/
theorem poll_exit_aborts (rw : RpcWorld) (values : ValueMap) (pInterface : Option Nat)
    (s : Str) (evs : List Event) (k code : Nat)
    (hclsid : mfind values "CLSID".toList = some s) (hguid : rw.parseGUID s = none)
    (h0 : (rw.coCreate 0).1 = REGDB_E_CLASSNOTREG)
    (hspawn : spawnWorker rw values = (none, evs))
    (hk : k < 600)
    (hwait : ∀ j < k, (rw.coCreate (j + 1)).1 = REGDB_E_CLASSNOTREG ∧
      rw.exitCode j = some STILL_ACTIVE)
    (hreg : (rw.coCreate (k + 1)).1 = REGDB_E_CLASSNOTREG)
    (hexit : rw.exitCode k = some code) (hcode : code ≠ STILL_ACTIVE) :
    ActivateRPCServer rw values pInterface =
      { error := some .processExited, hr := REGDB_E_CLASSNOTREG,
        pInterface := (rw.coCreate (k + 1)).2,
        trace := releaseExisting pInterface ++ [.activate] ++ evs ++
          (pollPrefix k ++ [.activate, .exitCheck]) } := by
  obtain ⟨n, hn⟩ : ∃ n, 600 = n + 1 + k := ⟨599 - k, by omega⟩
  have hw : ∀ j < k, (rw.coCreate (0 + j + 1)).1 = REGDB_E_CLASSNOTREG ∧
      rw.exitCode (0 + j) = some STILL_ACTIVE := by
    intro j hj
    rw [Nat.zero_add]
    exact hwait j hj
  have hp : pollLoop rw 600 0 (rw.coCreate 0).1 (rw.coCreate 0).2 =
      { error := some .processExited, hr := REGDB_E_CLASSNOTREG,
        pInterface := (rw.coCreate (k + 1)).2,
        trace := pollPrefix k ++ [.activate, .exitCheck] } := by
    rw [hn, pollLoop_waiting rw k n 0 _ _ hw, Nat.zero_add,
      pollLoop_exited rw n k _ code _ hreg hexit hcode]
  rw [Activate_polling rw values pInterface s evs hclsid hguid h0 hspawn, hp]

/-- C14 at the last iteration, `k = 599`: the process has exited with code `1`. -/
theorem poll_exit_aborts_witness :
    ActivateRPCServer
        (sampleRpc (fun _ => REGDB_E_CLASSNOTREG) (fun n => if n < 599 then STILL_ACTIVE else 1))
        activateExampleValues none =
      { error := some .processExited, hr := REGDB_E_CLASSNOTREG, pInterface := none,
        trace := releaseExisting none ++ [.activate] ++
          [.createProcess "worker.exe".toList ".".toList
            (environmentBlock [("FOO".toList, "1".toList)])] ++
          (pollPrefix 599 ++ [.activate, .exitCheck]) } :=
  poll_exit_aborts
    (sampleRpc (fun _ => REGDB_E_CLASSNOTREG) (fun n => if n < 599 then STILL_ACTIVE else 1))
    activateExampleValues none "id".toList _ 599 1 (by decide) (by decide) (by decide)
    (by decide) (by decide)
    (fun j hj => ⟨rfl, by
      show some (if j < 599 then STILL_ACTIVE else 1) = some STILL_ACTIVE
      rw [if_pos hj]⟩)
    (by decide) (by decide) (by decide)

/-! ## C15: the polling budget -/

/-- C15: whatever the outside answers, the polling loop makes at most 600 activation
attempts (at most 601 in the whole call, with the one before the spawn). After a successful
spawn, if all 600 attempts find the class not registered and every exit check finds the
process still active, `ActivateRPCServer` throws the exception of line 364 with
`hr = REGDB_E_CLASSNOTREG` after exactly 600 attempts in the loop; and that exception with
that code is thrown only in this way, after the 600 iterations. -/
theorem poll_budget (rw : RpcWorld) (values : ValueMap) (pInterface : Option Nat) :
    (∀ (hr : Nat) (p : Option Nat),
      (pollLoop rw 600 0 hr p).trace.countP Event.isActivate ≤ 600) ∧
    (ActivateRPCServer rw values pInterface).trace.countP Event.isActivate ≤ 601 ∧
    (∀ (s : Str) (evs : List Event),
      mfind values "CLSID".toList = some s → rw.parseGUID s = none →
      (rw.coCreate 0).1 = REGDB_E_CLASSNOTREG →
      spawnWorker rw values = (none, evs) →
      (∀ j < 600, (rw.coCreate (j + 1)).1 = REGDB_E_CLASSNOTREG ∧
        rw.exitCode j = some STILL_ACTIVE) →
      ActivateRPCServer rw values pInterface =
        { error := some (.couldNotActivate REGDB_E_CLASSNOTREG), hr := REGDB_E_CLASSNOTREG,
          pInterface := (rw.coCreate 600).2,
          trace := releaseExisting pInterface ++ [.activate] ++ evs ++ pollPrefix 600 } ∧
      (pollPrefix 600).countP Event.isActivate = 600) ∧
    ((ActivateRPCServer rw values pInterface).error
        = some (.couldNotActivate REGDB_E_CLASSNOTREG) →
      ∃ evs : List Event, (ActivateRPCServer rw values pInterface).trace =
        releaseExisting pInterface ++ [.activate] ++ evs ++ pollPrefix 600) := by
  refine ⟨fun hr p => pollLoop_activations_le rw 600 0 hr p,
    Activate_activations_le rw values pInterface, ?_,
    Activate_timed_out_only rw values pInterface⟩
  intro s evs hclsid hguid h0 hspawn hwait
  refine ⟨?_, pollPrefix_activations 600⟩
  have hw : ∀ j < 599, (rw.coCreate (0 + j + 1)).1 = REGDB_E_CLASSNOTREG ∧
      rw.exitCode (0 + j) = some STILL_ACTIVE := by
    intro j hj
    rw [Nat.zero_add]
    exact hwait j (by omega)
  have h599 := hwait 599 (by omega)
  have hp : pollLoop rw 600 0 (rw.coCreate 0).1 (rw.coCreate 0).2 =
      { error := none, hr := REGDB_E_CLASSNOTREG, pInterface := (rw.coCreate 600).2,
        trace := pollPrefix 600 } := by
    rw [pollLoop_exhausted rw 599 0 _ _ hw, Nat.zero_add,
      pollLoop_step rw 0 599 _ _ h599.1 h599.2, h599.1]
    rw [pollPrefix_succ_append 599]
    rfl
  rw [Activate_polling rw values pInterface s evs hclsid hguid h0 hspawn, hp]
  have hf : FAILED REGDB_E_CLASSNOTREG = true := by decide
  show finishActivation _ _ _ = _
  unfold finishActivation
  rw [hf]
  rfl

/-- C15 at an outside that always answers `REGDB_E_CLASSNOTREG` and `STILL_ACTIVE`. -/
theorem poll_budget_witness :
    ActivateRPCServer (sampleRpc (fun _ => REGDB_E_CLASSNOTREG) (fun _ => STILL_ACTIVE))
        activateExampleValues none =
      { error := some (.couldNotActivate REGDB_E_CLASSNOTREG), hr := REGDB_E_CLASSNOTREG,
        pInterface := none,
        trace := releaseExisting none ++ [.activate] ++
          [.createProcess "worker.exe".toList ".".toList
            (environmentBlock [("FOO".toList, "1".toList)])] ++ pollPrefix 600 } ∧
    (pollPrefix 600).countP Event.isActivate = 600 :=
  (poll_budget (sampleRpc (fun _ => REGDB_E_CLASSNOTREG) (fun _ => STILL_ACTIVE))
    activateExampleValues none).2.2.1 "id".toList _ (by decide) (by decide) (by decide)
    (by decide) (fun _ _ => ⟨rfl, rfl⟩)

/-! ## C16: the first poll attempt with another result -/

/-- C16: after a successful spawn, let the iterations before iteration `k < 600` have
found the class not registered and the process still active, and let the attempt of
iteration `k` give another result. Then the loop ends there: `ActivateRPCServer` ends
normally with the pointer of that attempt when it succeeded, and throws the exception of
line 364 with its code when it failed; the whole call has made `k + 2` activation attempts
and one call of `CreateProcessA`. -/
theorem poll_first_other_result (rw : RpcWorld) (values : ValueMap) (pInterface : Option Nat)
    (s : Str) (evs : List Event) (k : Nat)
    (hclsid : mfind values "CLSID".toList = some s) (hguid : rw.parseGUID s = none)
    (h0 : (rw.coCreate 0).1 = REGDB_E_CLASSNOTREG)
    (hspawn : spawnWorker rw values = (none, evs))
    (hk : k < 600)
    (hwait : ∀ j < k, (rw.coCreate (j + 1)).1 = REGDB_E_CLASSNOTREG ∧
      rw.exitCode j = some STILL_ACTIVE)
    (hres : (rw.coCreate (k + 1)).1 ≠ REGDB_E_CLASSNOTREG) :
    ActivateRPCServer rw values pInterface =
      { error := if FAILED (rw.coCreate (k + 1)).1 then
          some (.couldNotActivate (rw.coCreate (k + 1)).1) else none,
        hr := (rw.coCreate (k + 1)).1, pInterface := (rw.coCreate (k + 1)).2,
        trace := releaseExisting pInterface ++ [.activate] ++ evs ++
          (pollPrefix k ++ [.activate]) } ∧
    (ActivateRPCServer rw values pInterface).trace.countP Event.isActivate = k + 2 ∧
    (ActivateRPCServer rw values pInterface).trace.countP Event.isSpawn = 1 := by
  obtain ⟨n, hn⟩ : ∃ n, 600 = n + 1 + k := ⟨599 - k, by omega⟩
  have hw : ∀ j < k, (rw.coCreate (0 + j + 1)).1 = REGDB_E_CLASSNOTREG ∧
      rw.exitCode (0 + j) = some STILL_ACTIVE := by
    intro j hj
    rw [Nat.zero_add]
    exact hwait j hj
  have hp : pollLoop rw 600 0 (rw.coCreate 0).1 (rw.coCreate 0).2 =
      { error := none, hr := (rw.coCreate (k + 1)).1,
        pInterface := (rw.coCreate (k + 1)).2,
        trace := pollPrefix k ++ [.activate] } := by
    rw [hn, pollLoop_waiting rw k n 0 _ _ hw, Nat.zero_add, pollLoop_break rw n k _ _ hres]
  have hA : ActivateRPCServer rw values pInterface =
      { error := if FAILED (rw.coCreate (k + 1)).1 then
          some (.couldNotActivate (rw.coCreate (k + 1)).1) else none,
        hr := (rw.coCreate (k + 1)).1, pInterface := (rw.coCreate (k + 1)).2,
        trace := releaseExisting pInterface ++ [.activate] ++ evs ++
          (pollPrefix k ++ [.activate]) } := by
    rw [Activate_polling rw values pInterface s evs hclsid hguid h0 hspawn, hp]
    show finishActivation _ _ _ = _
    unfold finishActivation
    split <;> rfl
  have hsp := spawnWorker_counts rw values
  rw [hspawn] at hsp
  have hrel := releaseExisting_counts pInterface
  refine ⟨hA, ?_, ?_⟩
  · rw [hA]
    have h1 : List.countP Event.isActivate [Event.activate] = 1 := rfl
    simp only [List.countP_append, hrel.1, hsp.1, pollPrefix_activations, h1]
    omega
  · rw [hA]
    have h1 : List.countP Event.isSpawn [Event.activate] = 0 := rfl
    simp only [List.countP_append, hrel.2, hsp.2.2 rfl, pollPrefix_no_spawn, h1]

/-- C16 at a third poll attempt (`k = 2`) that succeeds. -/
theorem poll_first_other_result_witness :
    ActivateRPCServer
        (sampleRpc (fun n => if n < 3 then REGDB_E_CLASSNOTREG else 0) (fun _ => STILL_ACTIVE))
        activateExampleValues none =
      { error := none, hr := 0, pInterface := some 7,
        trace := [.activate,
          .createProcess "worker.exe".toList ".".toList
            (environmentBlock [("FOO".toList, "1".toList)]),
          .activate, .exitCheck, .sleep, .activate, .exitCheck, .sleep, .activate] } ∧
    (ActivateRPCServer
        (sampleRpc (fun n => if n < 3 then REGDB_E_CLASSNOTREG else 0) (fun _ => STILL_ACTIVE))
        activateExampleValues none).trace.countP Event.isActivate = 2 + 2 ∧
    (ActivateRPCServer
        (sampleRpc (fun n => if n < 3 then REGDB_E_CLASSNOTREG else 0) (fun _ => STILL_ACTIVE))
        activateExampleValues none).trace.countP Event.isSpawn = 1 :=
  poll_first_other_result
    (sampleRpc (fun n => if n < 3 then REGDB_E_CLASSNOTREG else 0) (fun _ => STILL_ACTIVE))
    activateExampleValues none "id".toList
    [.createProcess "worker.exe".toList ".".toList
      (environmentBlock [("FOO".toList, "1".toList)])]
    2 (by decide) (by decide) (by decide) (by decide) (by decide) (by decide) (by decide)

/-! ## C17: `CheckRPCServer` -/

/-- C17, as stated, fails: for the failure code `E_FAIL = 0x80004005`, which is not
`0x800706ba`, `CheckRPCServer` returns `true`; it throws nothing. -/
theorem CheckRPCServer_other_failure :
    FAILED 0x80004005 = true ∧ 0x80004005 ≠ 0x800706ba ∧ CheckRPCServer 0x80004005 = true := by
  decide

/-- C17 (amended): `CheckRPCServer` returns `true` when the probe succeeds, `false` when it
fails with `0x800706ba`, and `true` for every other failure code; it returns `false` for
the code `0x800706ba` only, and it never throws. -/
theorem CheckRPCServer_spec (hr : Nat) :
    (FAILED hr = false → CheckRPCServer hr = true) ∧
    (hr = 0x800706ba → FAILED hr = true ∧ CheckRPCServer hr = false) ∧
    (FAILED hr = true → hr ≠ 0x800706ba → CheckRPCServer hr = true) ∧
    (CheckRPCServer hr = false ↔ hr = 0x800706ba) := by
  have h4 : CheckRPCServer hr = false ↔ hr = 0x800706ba := by
    unfold CheckRPCServer
    rw [decide_eq_false_iff_not, not_not]
    exact eq_comm
  refine ⟨?_, ?_, ?_, h4⟩
  · intro hf
    by_contra hc
    rw [Bool.not_eq_true, h4] at hc
    subst hc
    revert hf
    decide
  · intro h
    subst h
    decide
  · intro _ hne
    by_contra hc
    rw [Bool.not_eq_true, h4] at hc
    exact hne hc

/-! ## C18: a value without macros -/

/-- C18: let a line (shorter than `npos`) read `before = after` once trimmed, with no `=`
in `before`, not be a comment, and have no `$(` in its trimmed value. Then the key is
`before` trimmed and the value is `after` trimmed, later `=` included; the macro loop
leaves the value as it is, and the line stores it under the key. -/
theorem assign_without_macro (values : ValueMap) (raw before after : Str) (fuel : Nat)
    (hlen : raw.length < npos)
    (hline : strtrim raw = before ++ '=' :: after) (hfirst : '=' ∉ before)
    (hcomment : (strtrim raw).head? ≠ some '#')
    (hnomac : ¬ "$(".toList <:+: strtrim after) :
    parseLine raw = .assign (strtrim raw) (strtrim before) (strtrim after) ∧
    macroStep values (strtrim raw) (strtrim after) = .done (strtrim after) ∧
    expandMacros values (strtrim raw) (fuel + 1) (strtrim after) = .ok (strtrim after) ∧
    processLine (fuel + 1) values raw
      = .ok (mset values (strtrim before) (strtrim after)) ∧
    mfind (mset values (strtrim before) (strtrim after)) (strtrim before)
      = some (strtrim after) := by
  have hsz : npos < sizeMod := npos_lt_sizeMod
  have hl := strtrim_length_le raw
  have hll : (strtrim raw).length = before.length + (after.length + 1) := by
    rw [hline]; simp
  have hs : "=".toList = ['='] := by decide
  have hfind : find (strtrim raw) "=".toList 0 = before.length := by
    unfold find
    rw [List.drop_zero, hs, hline, sfind_single_append '=' before after hfirst]
    simp
  have hparse : parseLine raw = .assign (strtrim raw) (strtrim before) (strtrim after) := by
    unfold parseLine
    dsimp only
    have hne : ¬ (strtrim raw = [] ∨ (strtrim raw).head? = some '#') := by
      rw [not_or]
      refine ⟨?_, hcomment⟩
      rw [hline]
      simp
    rw [if_neg hne, hfind, if_neg (by omega)]
    have e1 : uadd before.length 1 = before.length + 1 := uadd_eq _ _ (by omega)
    have e2 : usub (strtrim raw).length before.length = after.length + 1 := by
      rw [usub_eq _ _ (by omega) (by omega)]; omega
    have e3 : usub (after.length + 1) 1 = after.length := by
      rw [usub_eq _ _ (by omega) (by omega)]; omega
    rw [e1, e2, e3]
    have k1 : substr (strtrim raw) 0 before.length = before := by
      unfold substr
      rw [List.drop_zero, hline, List.take_left]
    have k2 : substr (strtrim raw) (before.length + 1) after.length = after := by
      unfold substr
      rw [hline]
      have : before ++ '=' :: after = (before ++ ['=']) ++ after := by simp
      rw [this, List.drop_left' (by simp), List.take_length]
    rw [k1, k2]
  have hstep := macroStep_done values (strtrim raw) (strtrim after) hnomac
  have hexp : expandMacros values (strtrim raw) (fuel + 1) (strtrim after)
      = .ok (strtrim after) := by
    rw [expandMacros, hstep]
  refine ⟨hparse, hstep, hexp, ?_, mfind_mset_same _ _ _⟩
  unfold processLine
  rw [hparse]
  dsimp only
  rw [hexp]
  rfl

/-- C18 at the line `  path = a=b $x  `. -/
theorem assign_without_macro_witness :
    parseLine "  path = a=b $x  ".toList
      = .assign (strtrim "  path = a=b $x  ".toList) (strtrim "path ".toList)
          (strtrim " a=b $x".toList) ∧
    macroStep [] (strtrim "  path = a=b $x  ".toList) (strtrim " a=b $x".toList)
      = .done (strtrim " a=b $x".toList) ∧
    expandMacros [] (strtrim "  path = a=b $x  ".toList) (0 + 1) (strtrim " a=b $x".toList)
      = .ok (strtrim " a=b $x".toList) ∧
    processLine (0 + 1) [] "  path = a=b $x  ".toList
      = .ok (mset [] (strtrim "path ".toList) (strtrim " a=b $x".toList)) ∧
    mfind (mset [] (strtrim "path ".toList) (strtrim " a=b $x".toList)) (strtrim "path ".toList)
      = some (strtrim " a=b $x".toList) :=
  assign_without_macro [] "  path = a=b $x  ".toList "path ".toList " a=b $x".toList 0
    (by decide) (by decide) (by decide) (by decide) (by decide)

/-! ## C19: a macro whose name is present -/

/-- C19: let `name` (without `)`, not starting with `?`) have the value `v`, in a value
`pre $(name) post` with no `$(` in `pre`. One pass of the loop turns the value into
`pre ++ v ++ post`, so resolving it gives the outcome (result or error) of resolving
`pre ++ v ++ post`, macros of `v` included. In particular, when `ConfigDir` has a value
without `$(`, the line `Command=$(ConfigDir)\run.exe` stores that value followed by
`\run.exe` under `Command`. -/
theorem macro_of_present_name (values : ValueMap) (line pre name post v : Str) (fuel : Nat)
    (hpre : ¬ "$(".toList <:+: pre) (hname : ')' ∉ name) (hq : name.head? ≠ some '?')
    (hlen : pre.length + name.length + post.length + 3 < npos)
    (hv : mfind values name = some v) :
    macroStep values line (pre ++ "$(".toList ++ name ++ ")".toList ++ post)
      = .next (pre ++ v ++ post) ∧
    expandMacros values line (fuel + 1) (pre ++ "$(".toList ++ name ++ ")".toList ++ post)
      = expandMacros values line fuel (pre ++ v ++ post) ∧
    (∀ r : Outcome Str, r ≠ .timeout →
      ((∃ f, expandMacros values line f (pre ++ "$(".toList ++ name ++ ")".toList ++ post) = r)
        ↔ ∃ f, expandMacros values line f (pre ++ v ++ post) = r)) ∧
    (∀ dir : Str, mfind values "ConfigDir".toList = some dir → ¬ "$(".toList <:+: dir →
      dir.length + 20 < npos →
      processLine (fuel + 2) values "Command=$(ConfigDir)\\run.exe".toList
        = .ok (mset values "Command".toList (dir ++ "\\run.exe".toList))) := by
  have hstep : ∀ l, macroStep values l (pre ++ "$(".toList ++ name ++ ")".toList ++ post)
      = .next (pre ++ v ++ post) := by
    intro l
    rw [macroStep_closed values l pre name post hpre hname
      (by
        have : "$(".toList.length = 2 := by decide
        have h2 : ")".toList.length = 1 := by decide
        simp only [List.length_append, this, h2]; omega),
      macroValueOf_required_present values name v hv hq]
  have hexp : ∀ f, expandMacros values line (f + 1)
      (pre ++ "$(".toList ++ name ++ ")".toList ++ post)
      = expandMacros values line f (pre ++ v ++ post) := by
    intro f
    rw [expandMacros, hstep]
  refine ⟨hstep line, hexp fuel, ?_, ?_⟩
  · intro r hr
    constructor
    · rintro ⟨f, hf⟩
      cases f with
      | zero => exact absurd hf.symm hr
      | succ f => exact ⟨f, by rw [← hexp f]; exact hf⟩
    · rintro ⟨f, hf⟩
      exact ⟨f + 1, by rw [hexp f]; exact hf⟩
  · intro dir hdir hno hdl
    have hp : parseLine "Command=$(ConfigDir)\\run.exe".toList =
        .assign "Command=$(ConfigDir)\\run.exe".toList "Command".toList
          ([] ++ "$(".toList ++ "ConfigDir".toList ++ ")".toList ++ "\\run.exe".toList) := by
      decide
    have h1 : macroStep values "Command=$(ConfigDir)\\run.exe".toList
        ([] ++ "$(".toList ++ "ConfigDir".toList ++ ")".toList ++ "\\run.exe".toList)
        = .next ([] ++ dir ++ "\\run.exe".toList) := by
      rw [macroStep_closed values _ [] "ConfigDir".toList "\\run.exe".toList
        (by decide) (by decide) (by decide),
        macroValueOf_required_present values _ dir hdir (by decide)]
    have h2 : macroStep values "Command=$(ConfigDir)\\run.exe".toList
        ([] ++ dir ++ "\\run.exe".toList) = .done ([] ++ dir ++ "\\run.exe".toList) := by
      apply macroStep_done
      rw [List.nil_append]
      exact not_infix_macro_append dir _ hno (by decide) (by decide)
    have he : expandMacros values "Command=$(ConfigDir)\\run.exe".toList (fuel + 1 + 1)
        ([] ++ "$(".toList ++ "ConfigDir".toList ++ ")".toList ++ "\\run.exe".toList)
        = .ok ([] ++ dir ++ "\\run.exe".toList) := by
      rw [expandMacros_next _ _ _ _ _ h1, expandMacros_done _ _ _ _ _ h2]
    show processLine (fuel + 1 + 1) values _ = _
    unfold processLine
    rw [hp]
    dsimp only
    rw [he]
    rfl

/-- C19 at `x$(a)y` with `a = $(b)` and `b = 2`, which resolves to `x2y`, and at the file
`Command=$(ConfigDir)\run.exe` loaded from `C:\xl\x.cfg`. -/
theorem macro_of_present_name_witness :
    (macroStep [("a".toList, "$(b)".toList), ("b".toList, "2".toList)] "k=x$(a)y".toList
        "x$(a)y".toList = .next "x$(b)y".toList ∧
      expandMacros [("a".toList, "$(b)".toList), ("b".toList, "2".toList)] "k=x$(a)y".toList
          (8 + 1) "x$(a)y".toList
        = expandMacros [("a".toList, "$(b)".toList), ("b".toList, "2".toList)]
            "k=x$(a)y".toList 8 "x$(b)y".toList) ∧
    expandMacros [("a".toList, "$(b)".toList), ("b".toList, "2".toList)] "k=x$(a)y".toList
      9 "x$(a)y".toList = .ok "x2y".toList ∧
    ∃ c : Config, commandExample = .ok c ∧
      mfind c.values "ConfigDir".toList = some "C:\\xl".toList ∧
      mfind c.values "Command".toList = some "C:\\xl\\run.exe".toList :=
  ⟨⟨(macro_of_present_name [("a".toList, "$(b)".toList), ("b".toList, "2".toList)]
      "k=x$(a)y".toList "x".toList "a".toList "y".toList "$(b)".toList 8
      (by decide) (by decide) (by decide) (by decide) (by decide)).1,
    (macro_of_present_name [("a".toList, "$(b)".toList), ("b".toList, "2".toList)]
      "k=x$(a)y".toList "x".toList "a".toList "y".toList "$(b)".toList 8
      (by decide) (by decide) (by decide) (by decide) (by decide)).2.1⟩,
    by decide, _, rfl, by decide, by decide⟩

/-! ## C20: the number of substitutions -/

/-- C20 fails on the code, by the defect of C4 (line 99 tests `itMacroStart` instead of
`itMacroEnd`). With no value known, the value `$(?abc` is never resolved: `itMacroEnd` is
`npos`, the count `npos - 0 + 1` wraps to `0` and `replace` changes nothing. And with
`abc = x`, the value `$(abc`, which has one `$`, takes two substitutions:
`$(abc`, `x$(abc`, `xx`. -/
theorem macro_expansion_unbounded :
    (∀ fuel : Nat, expandMacros [] "k=$(?abc".toList fuel "$(?abc".toList = .timeout) ∧
    ("$(abc".toList.count '$' = 1 ∧
      '$' ∉ "x".toList ∧
      macroStep [("abc".toList, "x".toList)] "k=$(abc".toList "$(abc".toList
        = .next "x$(abc".toList ∧
      macroStep [("abc".toList, "x".toList)] "k=$(abc".toList "x$(abc".toList
        = .next "xx".toList ∧
      macroStep [("abc".toList, "x".toList)] "k=$(abc".toList "xx".toList
        = .done "xx".toList) := by
  refine ⟨fun fuel => expandMacros_fixed [] _ _ (by decide) fuel, ?_⟩
  decide


end XlPython
